import Mathlib

/-!
A verification development for the incremental parse-result cache in
core/dbt/parser/results.py.  The Python class ParseResult (an artifact
registry keyed by unique ids, with per-file provenance records and a
reuse engine) is shallowly embedded below: dictionaries become
insertion-ordered association lists, mutation becomes explicit state
passing, and raised exceptions become Except values that carry the
registry state at the moment of the raise.
-/

set_option autoImplicit false

/-- Lookup in an insertion-ordered association list, as for a Python dict:
the first (unique) binding for the key. -/
def mget {α : Type} : List (String × α) → String → Option α
  | [], _ => none
  | (k, v) :: rest, key => if k = key then some v else mget rest key

/-- Insertion/assignment for an insertion-ordered association list, as for a
Python dict: an existing binding is overwritten in place, a new binding is
appended at the end. -/
def mset {α : Type} : List (String × α) → String → α → List (String × α)
  | [], key, v => [(key, v)]
  | (k, w) :: rest, key, v =>
    if k = key then (key, v) :: rest else (k, w) :: mset rest key v

/-- Modelled from the spec: a content fingerprint (dbt FileHash, declared in
dbt.contracts.graph.manifest, which is not under src/).  The spec treats it
as an opaque, equality-comparable digest. -/
structure FileHash where
  digest : String
deriving DecidableEq

/-- Modelled from the spec: the identity of a source file (dbt FilePath /
RemoteFile union, declared outside src/).  A file is either a local file
with an original file path, or a remotely fetched one. -/
inductive SourcePath where
  | localFile (orig : String)
  | remoteFile
deriving DecidableEq

/-- The original file path of a path, used to disambiguate disabled artifact
variants sharing a unique id. -/
def SourcePath.original_file_path : SourcePath → String
  | .localFile orig => orig
  | .remoteFile => "from remote system"

/-- Modelled from the spec: SourceFile (declared in
dbt.contracts.graph.manifest, not under src/).  Per spec section 3 it
carries a search key (a derived identity that may be absent for
synthetic or remote files), a content fingerprint, an original file path,
and five ordered sequences of artifact identifiers produced from the
file. -/
structure SourceFile where
  path : SourcePath
  checksum : FileHash
  search_key : Option String
  nodes : List String
  docs : List String
  macros : List String
  sources : List String
  patches : List String
deriving DecidableEq

/-- A parsed buildable unit.  The source's ManifestNodes union
(ParsedModelNode, ParsedSeedNode, ...) is collapsed into one record: all
variants share HasUniqueID and, via ParsedNode, an original file path; the
remaining content is opaque here. -/
structure ParsedNode where
  unique_id : String
  original_file_path : String
  contents : String
deriving DecidableEq

/-- In the source, the nodes table holds the union ManifestNodes; every
variant is a ParsedNode here. -/
abbrev ManifestNodes := ParsedNode

/-- A parsed source definition (unique id plus opaque content). -/
structure ParsedSourceDefinition where
  unique_id : String
  contents : String
deriving DecidableEq

/-- A parsed documentation block (unique id plus opaque content). -/
structure ParsedDocumentation where
  unique_id : String
  contents : String
deriving DecidableEq

/-- A parsed macro (unique id plus opaque content). -/
structure ParsedMacro where
  unique_id : String
  contents : String
deriving DecidableEq

/-- A parsed node patch, identified by name rather than unique id. -/
structure ParsedNodePatch where
  name : String
  contents : String
deriving DecidableEq

/-- The exceptions raised by results.py: raise_duplicate_resource_name for
sources and nodes (identifying the new and the pre-existing artifact),
raise_duplicate_patch_name for patches, CompilationException for cache
consistency failures during reuse, InternalException for untracked
disabled lookups. -/
inductive DbtError where
  | duplicateResourceNameSource (value existing : ParsedSourceDefinition)
  | duplicateResourceNameNode (value existing : ManifestNodes)
  | duplicatePatchName (patch_name : String) (value existing : ParsedNodePatch)
  | compilation (msg : String)
  | internal (msg : String)
deriving DecidableEq

/-- Embeds the helper of the same name: if value.unique_id is already bound
in src, the pre-existing artifact is returned so the caller can raise a
duplicate-resource-name error identifying both. -/
def _check_duplicates {α : Type} (unique_id_of : α → String)
    (value : α) (src : List (String × α)) : Option α :=
  mget src (unique_id_of value)

/-- Embeds the ParseResult dataclass: the five identifier-keyed artifact
tables, the disabled side table, the file index, the pinned configuration
hashes and the version tag. -/
structure ParseResult where
  vars_hash : FileHash
  profile_hash : FileHash
  project_hashes : List (String × FileHash)
  nodes : List (String × ManifestNodes)
  sources : List (String × ParsedSourceDefinition)
  docs : List (String × ParsedDocumentation)
  macros : List (String × ParsedMacro)
  patches : List (String × ParsedNodePatch)
  files : List (String × SourceFile)
  disabled : List (String × List ParsedNode)
  dbt_version : String
deriving DecidableEq

/-- Embeds ParseResult.get_file.  Returns the canonical record for the file
together with the registry after the call (get_file inserts the given
record under its search key when the key is untracked). -/
def ParseResult.get_file (self : ParseResult) (source_file : SourceFile) :
    SourceFile × ParseResult :=
  match source_file.search_key with
  | none => (source_file, self)
  | some key =>
    match mget self.files key with
    | some sf => (sf, self)
    | none =>
      (source_file, { self with files := mset self.files key source_file })

/-- The record that ParseResult.get_file would return, as a function of the
file index alone (get_file reads only search_key and files). -/
def record_of (files : List (String × SourceFile)) (source_file : SourceFile) :
    SourceFile :=
  match source_file.search_key with
  | none => source_file
  | some key =>
    match mget files key with
    | some sf => sf
    | none => source_file

/-- The canonical per-file record of a registry, spec-side observer used by
the theorems below. -/
def ParseResult.current_record (self : ParseResult) (source_file : SourceFile) :
    SourceFile :=
  record_of self.files source_file

/-- Models the mutation pattern self.get_file(source_file).xs.append(id)
used by every add operation: the record returned by get_file is mutated in
place, i.e. updated inside files when the file is tracked; for a file with
no search key the append lands on the caller's local record only and the
registry is unchanged. -/
def ParseResult.mutate_file (self : ParseResult) (source_file : SourceFile)
    (upd : SourceFile → SourceFile) : ParseResult :=
  let gf := self.get_file source_file
  match source_file.search_key with
  | none => gf.2
  | some key => { gf.2 with files := mset gf.2.files key (upd gf.1) }

/-- Embeds ParseResult.add_source: sources cannot be overwritten; on a
fresh id the source is inserted and its id appended to the owning file
record's sources sequence.  The error carries the registry state at the
raise (the duplicate check precedes every mutation). -/
def ParseResult.add_source (self : ParseResult) (source_file : SourceFile)
    (node : ParsedSourceDefinition) : Except (DbtError × ParseResult) ParseResult :=
  match _check_duplicates ParsedSourceDefinition.unique_id node self.sources with
  | some existing => .error (.duplicateResourceNameSource node existing, self)
  | none =>
    let self' := { self with sources := mset self.sources node.unique_id node }
    .ok (self'.mutate_file source_file
      (fun sf => { sf with sources := sf.sources ++ [node.unique_id] }))

/-- Embeds ParseResult.add_node: nodes cannot be overwritten; on a fresh id
the node is inserted and its id appended to the owning file record's nodes
sequence. -/
def ParseResult.add_node (self : ParseResult) (source_file : SourceFile)
    (node : ManifestNodes) : Except (DbtError × ParseResult) ParseResult :=
  match _check_duplicates ParsedNode.unique_id node self.nodes with
  | some existing => .error (.duplicateResourceNameNode node existing, self)
  | none =>
    let self' := { self with nodes := mset self.nodes node.unique_id node }
    .ok (self'.mutate_file source_file
      (fun sf => { sf with nodes := sf.nodes ++ [node.unique_id] }))

/-- Embeds ParseResult.add_disabled: never duplicate-checked; the variant is
appended to the existing list for its id (or starts a new one), and the id
is appended to the owning file record's nodes sequence. -/
def ParseResult.add_disabled (self : ParseResult) (source_file : SourceFile)
    (node : ParsedNode) : ParseResult :=
  let self' :=
    match mget self.disabled node.unique_id with
    | some entries =>
      { self with disabled := mset self.disabled node.unique_id (entries ++ [node]) }
    | none =>
      { self with disabled := mset self.disabled node.unique_id [node] }
  self'.mutate_file source_file
    (fun sf => { sf with nodes := sf.nodes ++ [node.unique_id] })

/-- Embeds the macro-registration operation of ParseResult (the source
method whose name joins add and macro): macros can be overwritten (last
writer wins); the id is appended to the owning file record's macros
sequence. -/
def ParseResult.addMacro (self : ParseResult) (source_file : SourceFile)
    (m : ParsedMacro) : ParseResult :=
  let self' := { self with macros := mset self.macros m.unique_id m }
  self'.mutate_file source_file
    (fun sf => { sf with macros := sf.macros ++ [m.unique_id] })

/-- Embeds ParseResult.add_doc: docs can be overwritten (last writer wins);
the id is appended to the owning file record's docs sequence. -/
def ParseResult.add_doc (self : ParseResult) (source_file : SourceFile)
    (doc : ParsedDocumentation) : ParseResult :=
  let self' := { self with docs := mset self.docs doc.unique_id doc }
  self'.mutate_file source_file
    (fun sf => { sf with docs := sf.docs ++ [doc.unique_id] })

/-- Embeds ParseResult.add_patch: patches are keyed by name and cannot be
overwritten; on a fresh name the patch is inserted and its name appended to
the owning file record's patches sequence. -/
def ParseResult.add_patch (self : ParseResult) (source_file : SourceFile)
    (patch : ParsedNodePatch) : Except (DbtError × ParseResult) ParseResult :=
  match mget self.patches patch.name with
  | some existing => .error (.duplicatePatchName patch.name patch existing, self)
  | none =>
    let self' := { self with patches := mset self.patches patch.name patch }
    .ok (self'.mutate_file source_file
      (fun sf => { sf with patches := sf.patches ++ [patch.name] }))

/-- The InternalException message raised when _get_disabled is called for an
id absent from the disabled table. -/
def disabled_missing_message (unique_id : String) : String :=
  "called _get_disabled with id=" ++ unique_id ++ ", but it does not exist"

/-- Embeds ParseResult._get_disabled (the spec's get_disabled_for): fails
with an internal error when the id is entirely absent from disabled;
otherwise returns the variants whose original file path matches the given
file's. -/
def ParseResult._get_disabled (self : ParseResult) (unique_id : String)
    (match_file : SourceFile) : Except DbtError (List ParsedNode) :=
  match mget self.disabled unique_id with
  | none => .error (.internal (disabled_missing_message unique_id))
  | some entries =>
    .ok (entries.filter
      (fun n => n.original_file_path == match_file.path.original_file_path))

/-- The CompilationException message raised by _expect_value when a
recorded id is missing from the named cached table. -/
def expect_value_message (key : String) (name : String) : String :=
  "Expected to find " ++ key ++ " in cached result." ++ name ++
    " based on cached file information!"

/-- Embeds the helper _expect_value: raises a CompilationException when a
recorded id is missing from its cached table, otherwise returns the cached
artifact. -/
def _expect_value {α : Type} (key : String) (src : List (String × α))
    (old_file : SourceFile) (name : String) : Except DbtError α :=
  match mget src key with
  | none => .error (.compilation (expect_value_message key name))
  | some v => .ok v

/-- The CompilationException message raised by sanitized_update when a
recorded node id is in neither the cached nodes nor the cached disabled
table. -/
def node_missing_message (node_id : String) : String :=
  "Expected to find " ++ node_id ++ " in cached manifest.nodes or " ++
    "manifest.disabled based on cached file information!"

/-- Embeds the for-loop over old_file.docs in ParseResult.sanitized_update:
each recorded doc id is looked up via _expect_value and re-added with
add_doc.  A raise carries the new-registry state at that moment. -/
def reuse_docs (old_result : ParseResult) (source_file old_file : SourceFile) :
    ParseResult → List String → Except (DbtError × ParseResult) ParseResult
  | self, [] => .ok self
  | self, doc_id :: rest =>
    match _expect_value doc_id old_result.docs old_file "docs" with
    | .error e => .error (e, self)
    | .ok doc =>
      reuse_docs old_result source_file old_file
        (self.add_doc source_file doc) rest

/-- Embeds the for-loop over old_file.macros in
ParseResult.sanitized_update. -/
def reuse_macros (old_result : ParseResult) (source_file old_file : SourceFile) :
    ParseResult → List String → Except (DbtError × ParseResult) ParseResult
  | self, [] => .ok self
  | self, macro_id :: rest =>
    match _expect_value macro_id old_result.macros old_file "macros" with
    | .error e => .error (e, self)
    | .ok m =>
      reuse_macros old_result source_file old_file
        (ParseResult.addMacro self source_file m) rest

/-- Embeds the for-loop over old_file.sources in
ParseResult.sanitized_update. -/
def reuse_sources (old_result : ParseResult) (source_file old_file : SourceFile) :
    ParseResult → List String → Except (DbtError × ParseResult) ParseResult
  | self, [] => .ok self
  | self, source_id :: rest =>
    match _expect_value source_id old_result.sources old_file "sources" with
    | .error e => .error (e, self)
    | .ok s =>
      match self.add_source source_file s with
      | .error es => .error es
      | .ok self' => reuse_sources old_result source_file old_file self' rest

/-- Embeds the for-loop over old_file.nodes in ParseResult.sanitized_update:
an id found in the cached nodes table is re-added verbatim; otherwise, if
present in disabled, the variants matching this file's original path are
re-added via add_disabled; otherwise a CompilationException is raised. -/
def reuse_nodes (old_result : ParseResult) (source_file old_file : SourceFile) :
    ParseResult → List String → Except (DbtError × ParseResult) ParseResult
  | self, [] => .ok self
  | self, node_id :: rest =>
    match mget old_result.nodes node_id with
    | some node =>
      match self.add_node source_file node with
      | .error es => .error es
      | .ok self' => reuse_nodes old_result source_file old_file self' rest
    | none =>
      match mget old_result.disabled node_id with
      | some _ =>
        match ParseResult._get_disabled old_result node_id source_file with
        | .error e => .error (e, self)
        | .ok variants =>
          reuse_nodes old_result source_file old_file
            (variants.foldl (fun acc m => acc.add_disabled source_file m) self)
            rest
      | none => .error (.compilation (node_missing_message node_id), self)

/-- Embeds the for-loop over old_file.patches in
ParseResult.sanitized_update. -/
def reuse_patches (old_result : ParseResult) (source_file old_file : SourceFile) :
    ParseResult → List String → Except (DbtError × ParseResult) ParseResult
  | self, [] => .ok self
  | self, name :: rest =>
    match _expect_value name old_result.patches old_file "patches" with
    | .error e => .error (e, self)
    | .ok patch =>
      match self.add_patch source_file patch with
      | .error es => .error es
      | .ok self' => reuse_patches old_result source_file old_file self' rest

/-- Embeds ParseResult.sanitized_update (the spec's reuse_file): refuses a
remotely fetched file (returns false), otherwise retrieves the old
registry's record for the file and re-adds its docs, macros, sources,
nodes and patches in that order, returning true.  A raised exception
carries the new-registry state at the raise. -/
def ParseResult.sanitized_update (self : ParseResult) (source_file : SourceFile)
    (old_result : ParseResult) : Except (DbtError × ParseResult) (ParseResult × Bool) :=
  match source_file.path with
  | .remoteFile => .ok (self, false)
  | .localFile _ =>
    let gf := old_result.get_file source_file
    let old_file := gf.1
    let old' := gf.2
    (reuse_docs old' source_file old_file self old_file.docs).bind (fun s1 =>
    (reuse_macros old' source_file old_file s1 old_file.macros).bind (fun s2 =>
    (reuse_sources old' source_file old_file s2 old_file.sources).bind (fun s3 =>
    (reuse_nodes old' source_file old_file s3 old_file.nodes).bind (fun s4 =>
    (reuse_patches old' source_file old_file s4 old_file.patches).bind (fun s5 =>
    .ok (s5, true))))))

/-- Embeds ParseResult.has_file: true exactly when the file has a search
key, that key is tracked, and the stored record's checksum equals the
candidate's. -/
def ParseResult.has_file (self : ParseResult) (source_file : SourceFile) : Bool :=
  match source_file.search_key with
  | none => false
  | some key =>
    match mget self.files key with
    | none => false
    | some sf => sf.checksum == source_file.checksum

/-! ### Concrete sample data used by counterexamples and witnesses -/

/-- A sample parsed node. -/
def node_a : ParsedNode := ⟨"model.a", "models/a.sql", "select 1"⟩

/-- A sample parsed doc. -/
def doc_a : ParsedDocumentation := ⟨"doc.a", "a doc"⟩

/-- A sample parsed macro artifact. -/
def mcr_a : ParsedMacro := ⟨"mcr.a", "a jinja block"⟩

/-- A sample parsed source definition. -/
def src_a : ParsedSourceDefinition := ⟨"source.a", "a source"⟩

/-- A sample parsed node patch. -/
def patch_a : ParsedNodePatch := ⟨"a", "a patch"⟩

/-- A cacheable local file with a search key and empty artifact sequences. -/
def file_a : SourceFile :=
  ⟨.localFile "models/a.sql", ⟨"h1"⟩, some "models/a.sql", [], [], [], [], []⟩

/-- A second cacheable local file. -/
def file_b : SourceFile :=
  ⟨.localFile "models/b.sql", ⟨"h2"⟩, some "models/b.sql", [], [], [], [], []⟩

/-- A remotely fetched file (no search key). -/
def remote_file0 : SourceFile :=
  ⟨.remoteFile, ⟨"h1"⟩, none, [], [], [], [], []⟩

/-- A synthetically generated local file with no stable search key (the
spec's ephemeral/non-cacheable kind that is not remotely fetched, e.g. a
large seed whose fingerprint is not recorded). -/
def synthetic_file : SourceFile :=
  ⟨.localFile "data/big_seed.csv", ⟨"h3"⟩, none, [], [], [], [], []⟩

/-- A file record whose node sequence references an id that no registry
table holds. -/
def ghost_file : SourceFile :=
  ⟨.localFile "models/g.sql", ⟨"h4"⟩, some "models/g.sql",
    ["ghost.node"], [], [], [], []⟩

/-- An empty registry. -/
def empty_result : ParseResult :=
  ⟨⟨"vars"⟩, ⟨"profile"⟩, [], [], [], [], [], [], [], [], "0.16.0"⟩

/-- A disabled variant of model.a recorded from a different original file
path than file_a's. -/
def stray_variant : ParsedNode := ⟨"model.a", "other/branch.sql", "select 2"⟩

/-- Old-registry record for file_a whose only node id resolves through the
disabled table. -/
def c1_old_file : SourceFile :=
  ⟨.localFile "models/a.sql", ⟨"h1"⟩, some "models/a.sql",
    ["model.a"], [], [], [], []⟩

/-- Old registry for the C1 counterexample: file_a's record lists node id
model.a, which lives only in disabled, as a variant whose original file
path differs from file_a's. -/
def c1_old_registry : ParseResult :=
  ⟨⟨"vars"⟩, ⟨"profile"⟩, [], [], [], [], [], [],
    [("models/a.sql", c1_old_file)], [("model.a", [stray_variant])], "0.16.0"⟩

/-- A disabled variant of model.dis recorded from file_a's own path. -/
def dis_variant : ParsedNode := ⟨"model.dis", "models/a.sql", "select 3"⟩

/-- Old-registry record for file_a holding one artifact of every kind plus
one disabled node (C1 witness). -/
def c1w_old_file : SourceFile :=
  ⟨.localFile "models/a.sql", ⟨"h1"⟩, some "models/a.sql",
    ["model.a", "model.dis"], ["doc.a"], ["mcr.a"], ["source.a"], ["a"]⟩

/-- Old registry for the C1 witness. -/
def c1w_old : ParseResult :=
  ⟨⟨"vars"⟩, ⟨"profile"⟩, [],
    [("model.a", node_a)], [("source.a", src_a)], [("doc.a", doc_a)],
    [("mcr.a", mcr_a)], [("a", patch_a)],
    [("models/a.sql", c1w_old_file)], [("model.dis", [dis_variant])],
    "0.16.0"⟩

/-- A registry already holding node_a, src_a and patch_a (duplicate-error
witnesses). -/
def dup_registry : ParseResult :=
  ⟨⟨"vars"⟩, ⟨"profile"⟩, [],
    [("model.a", node_a)], [("source.a", src_a)], [], [], [("a", patch_a)],
    [], [], "0.16.0"⟩

/-- A registry tracking file_a under its search key. -/
def tracked_registry : ParseResult :=
  ⟨⟨"vars"⟩, ⟨"profile"⟩, [], [], [], [], [], [],
    [("models/a.sql", file_a)], [], "0.16.0"⟩

/-- Old-registry record for file_a whose doc sequence references an id
missing from every table (C4 witness). -/
def c4_old_file : SourceFile :=
  ⟨.localFile "models/a.sql", ⟨"h1"⟩, some "models/a.sql",
    [], ["doc.missing"], [], [], []⟩

/-- Old registry whose record for file_a references a missing doc id. -/
def c4_old : ParseResult :=
  ⟨⟨"vars"⟩, ⟨"profile"⟩, [], [], [], [], [], [],
    [("models/a.sql", c4_old_file)], [], "0.16.0"⟩

/-- The per-record reference condition of the spec's registry invariant:
every id in the file record's sequences is present in the corresponding
table of the registry, where node ids may alternatively be present in
disabled. -/
def refs_ok (r : ParseResult) (sf : SourceFile) : Prop :=
  (∀ id, id ∈ sf.nodes →
    (mget r.nodes id).isSome = true ∨ (mget r.disabled id).isSome = true) ∧
  (∀ id, id ∈ sf.sources → (mget r.sources id).isSome = true) ∧
  (∀ id, id ∈ sf.docs → (mget r.docs id).isSome = true) ∧
  (∀ id, id ∈ sf.macros → (mget r.macros id).isSome = true) ∧
  (∀ nm, nm ∈ sf.patches → (mget r.patches nm).isSome = true)

/-- The spec's registry invariant: every file record stored in files
satisfies the reference condition. -/
def registry_inv (r : ParseResult) : Prop :=
  ∀ key sf, mget r.files key = some sf → refs_ok r sf

/-- Table growth: every key present stays present. -/
def table_le {α β : Type} (m : List (String × α)) (m2 : List (String × β)) :
    Prop :=
  ∀ k, (mget m k).isSome = true → (mget m2 k).isSome = true

/-- Registry growth on the six artifact tables. -/
def grows (r r2 : ParseResult) : Prop :=
  table_le r.nodes r2.nodes ∧ table_le r.sources r2.sources ∧
  table_le r.docs r2.docs ∧ table_le r.macros r2.macros ∧
  table_le r.patches r2.patches ∧ table_le r.disabled r2.disabled

/-! ### Association-list and canonical-record lemmas -/

/-- Looking up the key just set returns the new value. -/
theorem mget_mset_self {α : Type} (m : List (String × α)) (k : String) (v : α) :
    mget (mset m k v) k = some v := by
  induction m with
  | nil => simp [mget, mset]
  | cons p rest ih =>
    obtain ⟨k', w⟩ := p
    by_cases h : k' = k
    · subst h; simp [mget, mset]
    · simp [mget, mset, h, ih]

/-- Setting one key leaves lookups of other keys unchanged. -/
theorem mget_mset_ne {α : Type} (m : List (String × α)) (k k' : String) (v : α)
    (h : k' ≠ k) : mget (mset m k v) k' = mget m k' := by
  induction m with
  | nil => simp [mget, mset, Ne.symm h]
  | cons p rest ih =>
    obtain ⟨k'', w⟩ := p
    by_cases h2 : k'' = k
    · subst h2
      simp [mget, mset, Ne.symm h]
    · simp [mget, mset, h2, ih]

/-- Setting a key twice is the same as setting it once to the last value. -/
theorem mset_mset {α : Type} (m : List (String × α)) (k : String) (v w : α) :
    mset (mset m k v) k w = mset m k w := by
  induction m with
  | nil => simp [mset]
  | cons p rest ih =>
    obtain ⟨k', x⟩ := p
    by_cases h : k' = k
    · subst h; simp [mset]
    · simp [mset, h, ih]

/-- A set key is present. -/
theorem mget_mset_isSome {α : Type} (m : List (String × α)) (k k' : String)
    (v : α) (h : (mget m k').isSome = true) :
    (mget (mset m k v) k').isSome = true := by
  by_cases hk : k' = k
  · subst hk; rw [mget_mset_self]; rfl
  · rw [mget_mset_ne m k k' v hk]; exact h

/-- The canonical record of a file whose search key was just set. -/
theorem record_of_mset_self (files : List (String × SourceFile))
    (f sf : SourceFile) (key : String) (h : f.search_key = some key) :
    record_of (mset files key sf) f = sf := by
  simp [record_of, h, mget_mset_self]

/-- mutate_file is the identity on a file with no search key (the append
lands on the caller's local record only). -/
theorem mutate_file_none (r : ParseResult) (f : SourceFile)
    (u : SourceFile → SourceFile) (h : f.search_key = none) :
    r.mutate_file f u = r := by
  simp [ParseResult.mutate_file, ParseResult.get_file, h]

/-- mutate_file on a tracked file rewrites the canonical record of the file
in place (inserting it first when the key was absent). -/
theorem mutate_file_some (r : ParseResult) (f : SourceFile)
    (u : SourceFile → SourceFile) (key : String) (h : f.search_key = some key) :
    r.mutate_file f u =
      { r with files := mset r.files key (u (record_of r.files f)) } := by
  unfold ParseResult.mutate_file ParseResult.get_file record_of
  rw [h]
  cases hm : mget r.files key with
  | none => simp [hm, mset_mset]
  | some sf => simp [hm]

/-- mutate_file does not change the nodes table. -/
theorem mutate_file_nodes (r : ParseResult) (f : SourceFile)
    (u : SourceFile → SourceFile) : (r.mutate_file f u).nodes = r.nodes := by
  cases h : f.search_key with
  | none => rw [mutate_file_none r f u h]
  | some key => rw [mutate_file_some r f u key h]

/-- mutate_file does not change the sources table. -/
theorem mutate_file_sources (r : ParseResult) (f : SourceFile)
    (u : SourceFile → SourceFile) : (r.mutate_file f u).sources = r.sources := by
  cases h : f.search_key with
  | none => rw [mutate_file_none r f u h]
  | some key => rw [mutate_file_some r f u key h]

/-- mutate_file does not change the docs table. -/
theorem mutate_file_docs (r : ParseResult) (f : SourceFile)
    (u : SourceFile → SourceFile) : (r.mutate_file f u).docs = r.docs := by
  cases h : f.search_key with
  | none => rw [mutate_file_none r f u h]
  | some key => rw [mutate_file_some r f u key h]

/-- mutate_file does not change the macros table. -/
theorem mutate_file_macros (r : ParseResult) (f : SourceFile)
    (u : SourceFile → SourceFile) : (r.mutate_file f u).macros = r.macros := by
  cases h : f.search_key with
  | none => rw [mutate_file_none r f u h]
  | some key => rw [mutate_file_some r f u key h]

/-- mutate_file does not change the patches table. -/
theorem mutate_file_patches (r : ParseResult) (f : SourceFile)
    (u : SourceFile → SourceFile) : (r.mutate_file f u).patches = r.patches := by
  cases h : f.search_key with
  | none => rw [mutate_file_none r f u h]
  | some key => rw [mutate_file_some r f u key h]

/-- mutate_file does not change the disabled table. -/
theorem mutate_file_disabled (r : ParseResult) (f : SourceFile)
    (u : SourceFile → SourceFile) : (r.mutate_file f u).disabled = r.disabled := by
  cases h : f.search_key with
  | none => rw [mutate_file_none r f u h]
  | some key => rw [mutate_file_some r f u key h]

/-- After mutate_file on a tracked file, the canonical record is the update
applied to the previous canonical record. -/
theorem current_record_mutate (r : ParseResult) (f : SourceFile)
    (u : SourceFile → SourceFile) (key : String) (h : f.search_key = some key) :
    (r.mutate_file f u).current_record f = u (r.current_record f) := by
  rw [mutate_file_some r f u key h]
  unfold ParseResult.current_record
  exact record_of_mset_self r.files f (u (record_of r.files f)) key h

/-- mutate_file on a tracked file binds the updated canonical record under
the file's search key. -/
theorem mutate_file_files_mget (r : ParseResult) (f : SourceFile)
    (u : SourceFile → SourceFile) (key : String) (h : f.search_key = some key) :
    mget (r.mutate_file f u).files key = some (u (r.current_record f)) := by
  rw [mutate_file_some r f u key h]
  exact mget_mset_self r.files key (u (record_of r.files f))

/-- Destructing a successful Except bind. -/
theorem except_bind_ok {E A B : Type} {x : Except E A} {g : A → Except E B}
    {b : B} (h : x.bind g = .ok b) : ∃ a, x = .ok a ∧ g a = .ok b := by
  cases x with
  | error e => simp [Except.bind] at h
  | ok a => exact ⟨a, rfl, by simpa [Except.bind] using h⟩

/-! ### Claim C5 -/

/-- C5: has_file returns true iff the file has a search key, that key is
tracked in files, and the stored record's fingerprint equals the
candidate's; in particular it is false when the search key is absent, when
the key was never tracked, and when the fingerprints differ. -/
theorem c5_has_file_spec (r : ParseResult) (f : SourceFile) :
    (r.has_file f = true ↔
      ∃ key sf, f.search_key = some key ∧ mget r.files key = some sf ∧
        sf.checksum = f.checksum) ∧
    (f.search_key = none → r.has_file f = false) ∧
    (∀ key, f.search_key = some key → mget r.files key = none →
      r.has_file f = false) ∧
    (∀ key sf, f.search_key = some key → mget r.files key = some sf →
      sf.checksum ≠ f.checksum → r.has_file f = false) := by
  unfold ParseResult.has_file
  cases hk : f.search_key with
  | none => simp
  | some key =>
    cases hm : mget r.files key with
    | none => simp [hm]
    | some sf =>
      simp [hm, beq_iff_eq, beq_eq_false_iff_ne]
      intro key' sf' hkk hmm hne
      subst hkk
      rw [hm] at hmm
      injection hmm with h
      subst h
      exact hne

/-- C5 witness: a tracked file with an equal fingerprint is reported
cached; the same registry reports an untracked file as not cached. -/
theorem c5_has_file_spec_witness :
    tracked_registry.has_file file_a = true ∧
    tracked_registry.has_file file_b = false := by
  constructor
  · exact (c5_has_file_spec tracked_registry file_a).1.mpr
      ⟨"models/a.sql", file_a, rfl, rfl, rfl⟩
  · exact (c5_has_file_spec tracked_registry file_b).2.2.1 "models/b.sql" rfl rfl

/-! ### Claim C6 -/

/-- C6: get_file returns the input record and leaves the registry unchanged
when the file has no search key; inserts and returns the input record when
the key is fresh; returns the stored record with the registry unchanged
when the key is tracked; and two successive calls with the same key return
the same stored record. -/
theorem c6_get_file_spec (r : ParseResult) (f : SourceFile) :
    (f.search_key = none → r.get_file f = (f, r)) ∧
    (∀ key, f.search_key = some key → mget r.files key = none →
      (r.get_file f).1 = f ∧ mget ((r.get_file f).2).files key = some f) ∧
    (∀ key sf, f.search_key = some key → mget r.files key = some sf →
      r.get_file f = (sf, r)) ∧
    (∀ key g, f.search_key = some key → g.search_key = some key →
      (((r.get_file f).2).get_file g).1 = (r.get_file f).1) := by
  refine ⟨?_, ?_, ?_, ?_⟩
  · intro h; simp [ParseResult.get_file, h]
  · intro key hk hm
    simp [ParseResult.get_file, hk, hm, mget_mset_self]
  · intro key sf hk hm
    simp [ParseResult.get_file, hk, hm]
  · intro key g hk hg
    unfold ParseResult.get_file
    rw [hk, hg]
    cases hm : mget r.files key with
    | none => simp [hm, mget_mset_self]
    | some sf => simp [hm]

/-- C6 witness: looking file_a up in an empty registry inserts and returns
it; a second call returns the same stored record. -/
theorem c6_get_file_spec_witness :
    (empty_result.get_file file_a).1 = file_a ∧
    mget ((empty_result.get_file file_a).2).files "models/a.sql" = some file_a ∧
    (((empty_result.get_file file_a).2).get_file file_a).1 =
      (empty_result.get_file file_a).1 := by
  refine ⟨?_, ?_, ?_⟩
  · exact ((c6_get_file_spec empty_result file_a).2.1 "models/a.sql" rfl rfl).1
  · exact ((c6_get_file_spec empty_result file_a).2.1 "models/a.sql" rfl rfl).2
  · exact (c6_get_file_spec empty_result file_a).2.2.2 "models/a.sql" file_a rfl rfl

/-! ### Claim C10 -/

/-- C10: when add_node, add_source or add_patch raises its duplicate error,
the registry state carried at the raise is exactly the pre-call registry:
no table is modified and no id or name is appended anywhere, because the
duplicate check precedes every mutation. -/
theorem c10_duplicate_error_state (r : ParseResult) (f : SourceFile)
    (n : ManifestNodes) (s : ParsedSourceDefinition) (p : ParsedNodePatch) :
    (∀ e st, r.add_node f n = .error (e, st) → st = r) ∧
    (∀ e st, r.add_source f s = .error (e, st) → st = r) ∧
    (∀ e st, r.add_patch f p = .error (e, st) → st = r) := by
  refine ⟨?_, ?_, ?_⟩
  · intro e st h
    unfold ParseResult.add_node _check_duplicates at h
    cases hm : mget r.nodes n.unique_id with
    | none => rw [hm] at h; simp at h
    | some ex => rw [hm] at h; simp at h; exact h.2.symm
  · intro e st h
    unfold ParseResult.add_source _check_duplicates at h
    cases hm : mget r.sources s.unique_id with
    | none => rw [hm] at h; simp at h
    | some ex => rw [hm] at h; simp at h; exact h.2.symm
  · intro e st h
    unfold ParseResult.add_patch at h
    cases hm : mget r.patches p.name with
    | none => rw [hm] at h; simp at h
    | some ex => rw [hm] at h; simp at h; exact h.2.symm

/-- C10 witness: re-adding node_a, src_a and patch_a to a registry that
already holds them raises, and each raise carries the untouched registry. -/
theorem c10_duplicate_error_state_witness :
    dup_registry.add_node file_a node_a =
      .error (.duplicateResourceNameNode node_a node_a, dup_registry) ∧
    dup_registry = dup_registry := by
  refine ⟨rfl, ?_⟩
  exact (c10_duplicate_error_state dup_registry file_a node_a src_a patch_a).1
    (.duplicateResourceNameNode node_a node_a) dup_registry rfl

/-! ### Claim C2 -/

/-- C2 counterexample: a synthetically generated local file with no search
key is not refused by reuse: sanitized_update returns true on it (the code
tests only for a RemoteFile path), contradicting the claim that reuse
returns false immediately for every file with no stable search key. -/
theorem c2_counterexample :
    synthetic_file.search_key = none ∧
    ParseResult.sanitized_update empty_result synthetic_file empty_result =
      .ok (empty_result, true) := by
  exact ⟨rfl, rfl⟩

/-- C2 amended: reuse refuses exactly the remotely fetched files.  For a
RemoteFile path, sanitized_update returns false immediately with the new
registry unchanged (no artifact copied); conversely a false return only
arises for a RemoteFile path.  A local file with no search key is not
refused. -/
theorem c2_remote_refused (new_r old_r : ParseResult) (f : SourceFile) :
    (f.path = SourcePath.remoteFile →
      new_r.sanitized_update f old_r = .ok (new_r, false)) ∧
    (∀ st, new_r.sanitized_update f old_r = .ok (st, false) →
      f.path = SourcePath.remoteFile ∧ st = new_r) := by
  constructor
  · intro h
    simp only [ParseResult.sanitized_update, h]
  · intro st h
    cases hp : f.path with
    | remoteFile =>
      simp only [ParseResult.sanitized_update, hp] at h
      simp at h
      exact ⟨rfl, h.symm⟩
    | localFile p =>
      exfalso
      simp only [ParseResult.sanitized_update, hp] at h
      obtain ⟨s1, h1, h⟩ := except_bind_ok h
      obtain ⟨s2, h2, h⟩ := except_bind_ok h
      obtain ⟨s3, h3, h⟩ := except_bind_ok h
      obtain ⟨s4, h4, h⟩ := except_bind_ok h
      obtain ⟨s5, h5, h⟩ := except_bind_ok h
      simp at h

/-- C2 witness: a remotely fetched file is refused with the registry
unchanged. -/
theorem c2_remote_refused_witness :
    ParseResult.sanitized_update empty_result remote_file0 empty_result =
      .ok (empty_result, false) :=
  (c2_remote_refused empty_result empty_result remote_file0).1 rfl

/-! ### Claim C3 -/

/-- C3: add_node and add_source raise DuplicateResourceName identifying
both the new and the pre-existing artifact when the unique id is already
taken, and add_patch raises DuplicatePatchName identifying both patches
when the name is taken; with a fresh id/name each insertion succeeds, binds
the artifact in its table, and appends the id/name to the owning file
record's corresponding sequence. -/
theorem c3_add_uniqueness (r : ParseResult) (f : SourceFile)
    (n : ManifestNodes) (s : ParsedSourceDefinition) (p : ParsedNodePatch) :
    (∀ ex, mget r.nodes n.unique_id = some ex →
      r.add_node f n = .error (.duplicateResourceNameNode n ex, r)) ∧
    (∀ ex, mget r.sources s.unique_id = some ex →
      r.add_source f s = .error (.duplicateResourceNameSource s ex, r)) ∧
    (∀ ex, mget r.patches p.name = some ex →
      r.add_patch f p = .error (.duplicatePatchName p.name p ex, r)) ∧
    (mget r.nodes n.unique_id = none →
      ∃ r', r.add_node f n = .ok r' ∧
        mget r'.nodes n.unique_id = some n ∧
        (∀ key, f.search_key = some key →
          mget r'.files key =
            some { r.current_record f with
                     nodes := (r.current_record f).nodes ++ [n.unique_id] })) ∧
    (mget r.sources s.unique_id = none →
      ∃ r', r.add_source f s = .ok r' ∧
        mget r'.sources s.unique_id = some s ∧
        (∀ key, f.search_key = some key →
          mget r'.files key =
            some { r.current_record f with
                     sources := (r.current_record f).sources ++ [s.unique_id] })) ∧
    (mget r.patches p.name = none →
      ∃ r', r.add_patch f p = .ok r' ∧
        mget r'.patches p.name = some p ∧
        (∀ key, f.search_key = some key →
          mget r'.files key =
            some { r.current_record f with
                     patches := (r.current_record f).patches ++ [p.name] })) := by
  refine ⟨?_, ?_, ?_, ?_, ?_, ?_⟩
  · intro ex h
    simp only [ParseResult.add_node, _check_duplicates, h]
  · intro ex h
    simp only [ParseResult.add_source, _check_duplicates, h]
  · intro ex h
    simp only [ParseResult.add_patch, h]
  · intro h
    refine ⟨({ r with nodes := mset r.nodes n.unique_id n }).mutate_file f
      (fun sf => { sf with nodes := sf.nodes ++ [n.unique_id] }), ?_, ?_, ?_⟩
    · simp only [ParseResult.add_node, _check_duplicates, h]
    · rw [mutate_file_nodes]
      exact mget_mset_self r.nodes n.unique_id n
    · intro key hk
      rw [mutate_file_files_mget _ f _ key hk]
      rfl
  · intro h
    refine ⟨({ r with sources := mset r.sources s.unique_id s }).mutate_file f
      (fun sf => { sf with sources := sf.sources ++ [s.unique_id] }), ?_, ?_, ?_⟩
    · simp only [ParseResult.add_source, _check_duplicates, h]
    · rw [mutate_file_sources]
      exact mget_mset_self r.sources s.unique_id s
    · intro key hk
      rw [mutate_file_files_mget _ f _ key hk]
      rfl
  · intro h
    refine ⟨({ r with patches := mset r.patches p.name p }).mutate_file f
      (fun sf => { sf with patches := sf.patches ++ [p.name] }), ?_, ?_, ?_⟩
    · simp only [ParseResult.add_patch, h]
    · rw [mutate_file_patches]
      exact mget_mset_self r.patches p.name p
    · intro key hk
      rw [mutate_file_files_mget _ f _ key hk]
      rfl

/-- C3 witness: inserting node_a into the empty registry succeeds and
appends its id to file_a's record; re-inserting it into dup_registry
raises identifying both artifacts. -/
theorem c3_add_uniqueness_witness :
    dup_registry.add_node file_a node_a =
      .error (.duplicateResourceNameNode node_a node_a, dup_registry) ∧
    (∃ r', empty_result.add_node file_a node_a = .ok r' ∧
      mget r'.nodes "model.a" = some node_a ∧
      (∀ key, file_a.search_key = some key →
        mget r'.files key =
          some { empty_result.current_record file_a with
                   nodes := (empty_result.current_record file_a).nodes
                     ++ ["model.a"] })) := by
  constructor
  · exact (c3_add_uniqueness dup_registry file_a node_a src_a patch_a).1 node_a rfl
  · exact (c3_add_uniqueness empty_result file_a node_a src_a patch_a).2.2.2.1 rfl

/-! ### Claim C7 -/

/-- C7: macro and doc registration never raises (both operations are total
functions into ParseResult); two insertions sharing a unique id leave the
later artifact in the table (last writer wins); and each call appends the
id to its own file record's macro/doc sequence. -/
theorem c7_macro_doc_overwrite (r : ParseResult) (f1 f2 : SourceFile)
    (m1 m2 : ParsedMacro) (d1 d2 : ParsedDocumentation)
    (hm : m2.unique_id = m1.unique_id) (hd : d2.unique_id = d1.unique_id) :
    mget (ParseResult.addMacro (ParseResult.addMacro r f1 m1) f2 m2).macros
        m1.unique_id = some m2 ∧
    mget ((r.add_doc f1 d1).add_doc f2 d2).docs d1.unique_id = some d2 ∧
    (∀ key, f1.search_key = some key →
      mget (ParseResult.addMacro r f1 m1).files key =
        some { r.current_record f1 with
                 macros := (r.current_record f1).macros ++ [m1.unique_id] }) ∧
    (∀ key, f2.search_key = some key →
      mget (ParseResult.addMacro (ParseResult.addMacro r f1 m1) f2 m2).files key =
        some { (ParseResult.addMacro r f1 m1).current_record f2 with
                 macros := ((ParseResult.addMacro r f1 m1).current_record f2).macros
                   ++ [m2.unique_id] }) ∧
    (∀ key, f1.search_key = some key →
      mget (r.add_doc f1 d1).files key =
        some { r.current_record f1 with
                 docs := (r.current_record f1).docs ++ [d1.unique_id] }) ∧
    (∀ key, f2.search_key = some key →
      mget ((r.add_doc f1 d1).add_doc f2 d2).files key =
        some { (r.add_doc f1 d1).current_record f2 with
                 docs := ((r.add_doc f1 d1).current_record f2).docs
                   ++ [d2.unique_id] }) := by
  refine ⟨?_, ?_, ?_, ?_, ?_, ?_⟩
  · simp only [ParseResult.addMacro, mutate_file_macros]
    rw [hm, mset_mset]
    exact mget_mset_self r.macros m1.unique_id m2
  · simp only [ParseResult.add_doc, mutate_file_docs]
    rw [hd, mset_mset]
    exact mget_mset_self r.docs d1.unique_id d2
  · intro key hk
    simp only [ParseResult.addMacro]
    rw [mutate_file_files_mget _ f1 _ key hk]
    rfl
  · intro key hk
    simp only [ParseResult.addMacro]
    rw [mutate_file_files_mget _ f2 _ key hk]
    rfl
  · intro key hk
    simp only [ParseResult.add_doc]
    rw [mutate_file_files_mget _ f1 _ key hk]
    rfl
  · intro key hk
    simp only [ParseResult.add_doc]
    rw [mutate_file_files_mget _ f2 _ key hk]
    rfl

/-- C7 witness: overwriting mcr.a and doc.a with fresh contents leaves the
later artifacts in the tables. -/
theorem c7_macro_doc_overwrite_witness :
    mget (ParseResult.addMacro
        (ParseResult.addMacro empty_result file_a mcr_a) file_b
        ⟨"mcr.a", "new body"⟩).macros "mcr.a" = some ⟨"mcr.a", "new body"⟩ ∧
    mget ((empty_result.add_doc file_a doc_a).add_doc file_b
        ⟨"doc.a", "new doc"⟩).docs "doc.a" = some ⟨"doc.a", "new doc"⟩ := by
  constructor
  · exact (c7_macro_doc_overwrite empty_result file_a file_b mcr_a
      ⟨"mcr.a", "new body"⟩ doc_a ⟨"doc.a", "new doc"⟩ rfl rfl).1
  · exact (c7_macro_doc_overwrite empty_result file_a file_b mcr_a
      ⟨"mcr.a", "new body"⟩ doc_a ⟨"doc.a", "new doc"⟩ rfl rfl).2.1

/-! ### Claim C8 -/

/-- add_disabled starts a fresh single-variant list when the id was
untracked in disabled. -/
theorem add_disabled_disabled_none (r : ParseResult) (f : SourceFile)
    (v : ParsedNode) (h : mget r.disabled v.unique_id = none) :
    (r.add_disabled f v).disabled = mset r.disabled v.unique_id [v] := by
  simp only [ParseResult.add_disabled, h, mutate_file_disabled]

/-- add_disabled appends the variant to the existing list for its id. -/
theorem add_disabled_disabled_some (r : ParseResult) (f : SourceFile)
    (v : ParsedNode) (l : List ParsedNode)
    (h : mget r.disabled v.unique_id = some l) :
    (r.add_disabled f v).disabled = mset r.disabled v.unique_id (l ++ [v]) := by
  simp only [ParseResult.add_disabled, h, mutate_file_disabled]

/-- C8: disabled variants of one unique id registered from two files with
different original paths are retrieved separately: each _get_disabled call
returns exactly the variants whose original file path matches the given
file's, in registration order, and never a variant of the other file. -/
theorem c8_disabled_roundtrip (r : ParseResult) (f1 f2 : SourceFile)
    (uid : String) (v1 v2 v3 : ParsedNode)
    (h0 : mget r.disabled uid = none)
    (h1 : v1.unique_id = uid) (h2 : v2.unique_id = uid) (h3 : v3.unique_id = uid)
    (hp1 : v1.original_file_path = f1.path.original_file_path)
    (hp2 : v2.original_file_path = f2.path.original_file_path)
    (hp3 : v3.original_file_path = f1.path.original_file_path)
    (hne : f1.path.original_file_path ≠ f2.path.original_file_path) :
    ParseResult._get_disabled
        (((r.add_disabled f1 v1).add_disabled f2 v2).add_disabled f1 v3) uid f1 =
      .ok [v1, v3] ∧
    ParseResult._get_disabled
        (((r.add_disabled f1 v1).add_disabled f2 v2).add_disabled f1 v3) uid f2 =
      .ok [v2] := by
  have e1 : (r.add_disabled f1 v1).disabled = mset r.disabled uid [v1] := by
    rw [add_disabled_disabled_none r f1 v1 (by rw [h1]; exact h0), h1]
  have e2 : ((r.add_disabled f1 v1).add_disabled f2 v2).disabled =
      mset r.disabled uid [v1, v2] := by
    rw [add_disabled_disabled_some _ f2 v2 [v1]
      (by rw [h2, e1]; exact mget_mset_self r.disabled uid [v1]), h2, e1, mset_mset]
    rfl
  have e3 : (((r.add_disabled f1 v1).add_disabled f2 v2).add_disabled f1 v3).disabled =
      mset r.disabled uid [v1, v2, v3] := by
    rw [add_disabled_disabled_some _ f1 v3 [v1, v2]
      (by rw [h3, e2]; exact mget_mset_self r.disabled uid [v1, v2]), h3, e2, mset_mset]
    rfl
  have b1 : (v1.original_file_path == f1.path.original_file_path) = true := by
    rw [hp1]; exact beq_self_eq_true _
  have b2 : (v2.original_file_path == f1.path.original_file_path) = false := by
    rw [hp2]; exact beq_eq_false_iff_ne.mpr (Ne.symm hne)
  have b3 : (v3.original_file_path == f1.path.original_file_path) = true := by
    rw [hp3]; exact beq_self_eq_true _
  have c1 : (v1.original_file_path == f2.path.original_file_path) = false := by
    rw [hp1]; exact beq_eq_false_iff_ne.mpr hne
  have c2 : (v2.original_file_path == f2.path.original_file_path) = true := by
    rw [hp2]; exact beq_self_eq_true _
  have c3 : (v3.original_file_path == f2.path.original_file_path) = false := by
    rw [hp3]; exact beq_eq_false_iff_ne.mpr hne
  constructor
  · unfold ParseResult._get_disabled
    rw [e3, mget_mset_self]
    simp [List.filter, b1, b2, b3]
  · unfold ParseResult._get_disabled
    rw [e3, mget_mset_self]
    simp [List.filter, c1, c2, c3]

/-- C8 witness: two variants of model.x from models/a.sql and one from
models/b.sql round-trip to their own files only. -/
theorem c8_disabled_roundtrip_witness :
    ParseResult._get_disabled
        (((empty_result.add_disabled file_a ⟨"model.x", "models/a.sql", "v1"⟩).add_disabled
            file_b ⟨"model.x", "models/b.sql", "v2"⟩).add_disabled
          file_a ⟨"model.x", "models/a.sql", "v3"⟩) "model.x" file_a =
      .ok [⟨"model.x", "models/a.sql", "v1"⟩, ⟨"model.x", "models/a.sql", "v3"⟩] ∧
    ParseResult._get_disabled
        (((empty_result.add_disabled file_a ⟨"model.x", "models/a.sql", "v1"⟩).add_disabled
            file_b ⟨"model.x", "models/b.sql", "v2"⟩).add_disabled
          file_a ⟨"model.x", "models/a.sql", "v3"⟩) "model.x" file_b =
      .ok [⟨"model.x", "models/b.sql", "v2"⟩] := by
  exact c8_disabled_roundtrip empty_result file_a file_b "model.x"
    ⟨"model.x", "models/a.sql", "v1"⟩ ⟨"model.x", "models/b.sql", "v2"⟩
    ⟨"model.x", "models/a.sql", "v3"⟩ rfl rfl rfl rfl rfl rfl rfl (by decide)

/-! ### get_file projection lemmas -/

/-- The record returned by get_file, as a pure observation. -/
theorem get_file_fst (r : ParseResult) (f : SourceFile) :
    (r.get_file f).1 = r.current_record f := by
  unfold ParseResult.get_file ParseResult.current_record record_of
  cases h : f.search_key with
  | none => rfl
  | some key =>
    cases hm : mget r.files key with
    | none => simp [hm]
    | some sf => simp [hm]

/-- get_file does not change the nodes table. -/
theorem get_file_snd_nodes (r : ParseResult) (f : SourceFile) :
    ((r.get_file f).2).nodes = r.nodes := by
  unfold ParseResult.get_file
  cases h : f.search_key with
  | none => rfl
  | some key =>
    cases hm : mget r.files key with
    | none => simp [hm]
    | some sf => simp [hm]

/-- get_file does not change the sources table. -/
theorem get_file_snd_sources (r : ParseResult) (f : SourceFile) :
    ((r.get_file f).2).sources = r.sources := by
  unfold ParseResult.get_file
  cases h : f.search_key with
  | none => rfl
  | some key =>
    cases hm : mget r.files key with
    | none => simp [hm]
    | some sf => simp [hm]

/-- get_file does not change the docs table. -/
theorem get_file_snd_docs (r : ParseResult) (f : SourceFile) :
    ((r.get_file f).2).docs = r.docs := by
  unfold ParseResult.get_file
  cases h : f.search_key with
  | none => rfl
  | some key =>
    cases hm : mget r.files key with
    | none => simp [hm]
    | some sf => simp [hm]

/-- get_file does not change the macros table. -/
theorem get_file_snd_macros (r : ParseResult) (f : SourceFile) :
    ((r.get_file f).2).macros = r.macros := by
  unfold ParseResult.get_file
  cases h : f.search_key with
  | none => rfl
  | some key =>
    cases hm : mget r.files key with
    | none => simp [hm]
    | some sf => simp [hm]

/-- get_file does not change the patches table. -/
theorem get_file_snd_patches (r : ParseResult) (f : SourceFile) :
    ((r.get_file f).2).patches = r.patches := by
  unfold ParseResult.get_file
  cases h : f.search_key with
  | none => rfl
  | some key =>
    cases hm : mget r.files key with
    | none => simp [hm]
    | some sf => simp [hm]

/-- get_file does not change the disabled table. -/
theorem get_file_snd_disabled (r : ParseResult) (f : SourceFile) :
    ((r.get_file f).2).disabled = r.disabled := by
  unfold ParseResult.get_file
  cases h : f.search_key with
  | none => rfl
  | some key =>
    cases hm : mget r.files key with
    | none => simp [hm]
    | some sf => simp [hm]

/-! ### Reuse-loop consistency lemmas (claim C4) -/

/-- A doc id recorded for the file but missing from the cached docs table
makes the docs loop raise a CompilationException, never skip. -/
theorem reuse_docs_missing (old : ParseResult) (sf ofile : SourceFile)
    (id : String) (hmiss : mget old.docs id = none) (seq : List String) :
    ∀ st, id ∈ seq →
      ∃ st2 msg, reuse_docs old sf ofile st seq = .error (.compilation msg, st2) := by
  induction seq with
  | nil => intro st hin; cases hin
  | cons h t ih =>
    intro st hin
    cases hm : mget old.docs h with
    | none =>
      exact ⟨st, expect_value_message h "docs",
        by simp [reuse_docs, _expect_value, hm]⟩
    | some d =>
      have hit : id ∈ t := by
        rcases List.mem_cons.mp hin with rfl | hmem
        · rw [hmiss] at hm; cases hm
        · exact hmem
      obtain ⟨st2, msg, hh⟩ := ih (st.add_doc sf d) hit
      exact ⟨st2, msg, by simp [reuse_docs, _expect_value, hm, hh]⟩

/-- A macro id recorded for the file but missing from the cached macros
table makes the macros loop raise a CompilationException, never skip. -/
theorem reuse_macros_missing (old : ParseResult) (sf ofile : SourceFile)
    (id : String) (hmiss : mget old.macros id = none) (seq : List String) :
    ∀ st, id ∈ seq →
      ∃ st2 msg, reuse_macros old sf ofile st seq = .error (.compilation msg, st2) := by
  induction seq with
  | nil => intro st hin; cases hin
  | cons h t ih =>
    intro st hin
    cases hm : mget old.macros h with
    | none =>
      exact ⟨st, expect_value_message h "macros",
        by simp [reuse_macros, _expect_value, hm]⟩
    | some m =>
      have hit : id ∈ t := by
        rcases List.mem_cons.mp hin with rfl | hmem
        · rw [hmiss] at hm; cases hm
        · exact hmem
      obtain ⟨st2, msg, hh⟩ := ih (ParseResult.addMacro st sf m) hit
      exact ⟨st2, msg, by simp [reuse_macros, _expect_value, hm, hh]⟩

/-- The docs loop either succeeds or raises a CompilationException (add_doc
itself never raises). -/
theorem reuse_docs_cases (old : ParseResult) (sf ofile : SourceFile)
    (seq : List String) : ∀ st,
    (∃ st', reuse_docs old sf ofile st seq = .ok st') ∨
    (∃ st2 msg, reuse_docs old sf ofile st seq = .error (.compilation msg, st2)) := by
  induction seq with
  | nil => intro st; exact Or.inl ⟨st, rfl⟩
  | cons h t ih =>
    intro st
    cases hm : mget old.docs h with
    | none =>
      exact Or.inr ⟨st, expect_value_message h "docs",
        by simp [reuse_docs, _expect_value, hm]⟩
    | some d =>
      rcases ih (st.add_doc sf d) with ⟨st', hh⟩ | ⟨st2, msg, hh⟩
      · exact Or.inl ⟨st', by simp [reuse_docs, _expect_value, hm, hh]⟩
      · exact Or.inr ⟨st2, msg, by simp [reuse_docs, _expect_value, hm, hh]⟩

/-- A source id recorded for the file but missing from the cached sources
table makes the reuse raise, never skip. -/
theorem reuse_sources_missing (old : ParseResult) (sf ofile : SourceFile)
    (id : String) (hmiss : mget old.sources id = none) (seq : List String) :
    ∀ st, id ∈ seq → ∃ es, reuse_sources old sf ofile st seq = .error es := by
  induction seq with
  | nil => intro st hin; cases hin
  | cons h t ih =>
    intro st hin
    cases hm : mget old.sources h with
    | none =>
      exact ⟨(.compilation (expect_value_message h "sources"), st),
        by simp [reuse_sources, _expect_value, hm]⟩
    | some s =>
      have hit : id ∈ t := by
        rcases List.mem_cons.mp hin with rfl | hmem
        · rw [hmiss] at hm; cases hm
        · exact hmem
      cases ha : st.add_source sf s with
      | error es => exact ⟨es, by simp [reuse_sources, _expect_value, hm, ha]⟩
      | ok st' =>
        obtain ⟨es, hh⟩ := ih st' hit
        exact ⟨es, by simp [reuse_sources, _expect_value, hm, ha, hh]⟩

/-- A node id recorded for the file but present in neither the cached
nodes table nor the cached disabled table makes the reuse raise, never
skip. -/
theorem reuse_nodes_missing (old : ParseResult) (sf ofile : SourceFile)
    (id : String) (h1 : mget old.nodes id = none)
    (h2 : mget old.disabled id = none) (seq : List String) :
    ∀ st, id ∈ seq → ∃ es, reuse_nodes old sf ofile st seq = .error es := by
  induction seq with
  | nil => intro st hin; cases hin
  | cons h t ih =>
    intro st hin
    cases hm : mget old.nodes h with
    | some node =>
      have hit : id ∈ t := by
        rcases List.mem_cons.mp hin with rfl | hmem
        · rw [h1] at hm; cases hm
        · exact hmem
      cases ha : st.add_node sf node with
      | error es => exact ⟨es, by simp [reuse_nodes, hm, ha]⟩
      | ok st' =>
        obtain ⟨es, hh⟩ := ih st' hit
        exact ⟨es, by simp [reuse_nodes, hm, ha, hh]⟩
    | none =>
      cases hd : mget old.disabled h with
      | none =>
        exact ⟨(.compilation (node_missing_message h), st),
          by simp [reuse_nodes, hm, hd]⟩
      | some l =>
        have hit : id ∈ t := by
          rcases List.mem_cons.mp hin with rfl | hmem
          · rw [h2] at hd; cases hd
          · exact hmem
        obtain ⟨es, hh⟩ := ih
          ((l.filter (fun n =>
            n.original_file_path == sf.path.original_file_path)).foldl
            (fun acc m => acc.add_disabled sf m) st) hit
        exact ⟨es, by simp [reuse_nodes, hm, hd, ParseResult._get_disabled, hh]⟩

/-- A patch name recorded for the file but missing from the cached patches
table makes the reuse raise, never skip. -/
theorem reuse_patches_missing (old : ParseResult) (sf ofile : SourceFile)
    (nm : String) (hmiss : mget old.patches nm = none) (seq : List String) :
    ∀ st, nm ∈ seq → ∃ es, reuse_patches old sf ofile st seq = .error es := by
  induction seq with
  | nil => intro st hin; cases hin
  | cons h t ih =>
    intro st hin
    cases hm : mget old.patches h with
    | none =>
      exact ⟨(.compilation (expect_value_message h "patches"), st),
        by simp [reuse_patches, _expect_value, hm]⟩
    | some q =>
      have hit : nm ∈ t := by
        rcases List.mem_cons.mp hin with rfl | hmem
        · rw [hmiss] at hm; cases hm
        · exact hmem
      cases ha : st.add_patch sf q with
      | error es => exact ⟨es, by simp [reuse_patches, _expect_value, hm, ha]⟩
      | ok st' =>
        obtain ⟨es, hh⟩ := ih st' hit
        exact ⟨es, by simp [reuse_patches, _expect_value, hm, ha, hh]⟩

/-! ### Claim C4 -/

/-- C4: during reuse of a local file, a recorded doc/macro id missing from
its cached table aborts sanitized_update with a CompilationException (the
only error those stages can raise); a recorded source id, node id (absent
from both nodes and disabled) or patch name missing from its table aborts
sanitized_update with an error, never a skip; and _get_disabled raises an
InternalException whenever its unique_id is entirely absent from
disabled. -/
theorem c4_consistency_guard (new_r old_r : ParseResult) (sf : SourceFile)
    (p : String) (hp : sf.path = SourcePath.localFile p) :
    (∀ id, id ∈ (old_r.current_record sf).docs → mget old_r.docs id = none →
      ∃ st2 msg, new_r.sanitized_update sf old_r = .error (.compilation msg, st2)) ∧
    (∀ id, id ∈ (old_r.current_record sf).macros → mget old_r.macros id = none →
      ∃ st2 msg, new_r.sanitized_update sf old_r = .error (.compilation msg, st2)) ∧
    (∀ id, id ∈ (old_r.current_record sf).sources → mget old_r.sources id = none →
      ∃ es, new_r.sanitized_update sf old_r = .error es) ∧
    (∀ id, id ∈ (old_r.current_record sf).nodes → mget old_r.nodes id = none →
      mget old_r.disabled id = none →
      ∃ es, new_r.sanitized_update sf old_r = .error es) ∧
    (∀ nm, nm ∈ (old_r.current_record sf).patches → mget old_r.patches nm = none →
      ∃ es, new_r.sanitized_update sf old_r = .error es) ∧
    (∀ uid g, mget old_r.disabled uid = none →
      ParseResult._get_disabled old_r uid g =
        .error (.internal (disabled_missing_message uid))) := by
  refine ⟨?_, ?_, ?_, ?_, ?_, ?_⟩
  · intro id hin hmiss
    simp only [ParseResult.sanitized_update, hp]
    have hin' : id ∈ ((old_r.get_file sf).1).docs := by
      rw [get_file_fst]; exact hin
    have hmiss' : mget ((old_r.get_file sf).2).docs id = none := by
      rw [get_file_snd_docs]; exact hmiss
    obtain ⟨st2, msg, hh⟩ := reuse_docs_missing ((old_r.get_file sf).2) sf
      ((old_r.get_file sf).1) id hmiss' ((old_r.get_file sf).1).docs new_r hin'
    exact ⟨st2, msg, by simp only [hh, Except.bind]⟩
  · intro id hin hmiss
    simp only [ParseResult.sanitized_update, hp]
    have hin' : id ∈ ((old_r.get_file sf).1).macros := by
      rw [get_file_fst]; exact hin
    have hmiss' : mget ((old_r.get_file sf).2).macros id = none := by
      rw [get_file_snd_macros]; exact hmiss
    rcases reuse_docs_cases ((old_r.get_file sf).2) sf ((old_r.get_file sf).1)
        ((old_r.get_file sf).1).docs new_r with ⟨s1, hok⟩ | ⟨st2, msg, herr⟩
    · obtain ⟨st2, msg, hh⟩ := reuse_macros_missing ((old_r.get_file sf).2) sf
        ((old_r.get_file sf).1) id hmiss' ((old_r.get_file sf).1).macros s1 hin'
      exact ⟨st2, msg, by simp only [hok, hh, Except.bind]⟩
    · exact ⟨st2, msg, by simp only [herr, Except.bind]⟩
  · intro id hin hmiss
    simp only [ParseResult.sanitized_update, hp]
    have hin' : id ∈ ((old_r.get_file sf).1).sources := by
      rw [get_file_fst]; exact hin
    have hmiss' : mget ((old_r.get_file sf).2).sources id = none := by
      rw [get_file_snd_sources]; exact hmiss
    cases hd : reuse_docs ((old_r.get_file sf).2) sf ((old_r.get_file sf).1)
        new_r ((old_r.get_file sf).1).docs with
    | error es => exact ⟨es, by simp only [hd, Except.bind]⟩
    | ok s1 =>
      cases hmc : reuse_macros ((old_r.get_file sf).2) sf ((old_r.get_file sf).1)
          s1 ((old_r.get_file sf).1).macros with
      | error es => exact ⟨es, by simp only [hd, hmc, Except.bind]⟩
      | ok s2 =>
        obtain ⟨es, hh⟩ := reuse_sources_missing ((old_r.get_file sf).2) sf
          ((old_r.get_file sf).1) id hmiss' ((old_r.get_file sf).1).sources s2 hin'
        exact ⟨es, by simp only [hd, hmc, hh, Except.bind]⟩
  · intro id hin h1 h2
    simp only [ParseResult.sanitized_update, hp]
    have hin' : id ∈ ((old_r.get_file sf).1).nodes := by
      rw [get_file_fst]; exact hin
    have h1' : mget ((old_r.get_file sf).2).nodes id = none := by
      rw [get_file_snd_nodes]; exact h1
    have h2' : mget ((old_r.get_file sf).2).disabled id = none := by
      rw [get_file_snd_disabled]; exact h2
    cases hd : reuse_docs ((old_r.get_file sf).2) sf ((old_r.get_file sf).1)
        new_r ((old_r.get_file sf).1).docs with
    | error es => exact ⟨es, by simp only [hd, Except.bind]⟩
    | ok s1 =>
      cases hmc : reuse_macros ((old_r.get_file sf).2) sf ((old_r.get_file sf).1)
          s1 ((old_r.get_file sf).1).macros with
      | error es => exact ⟨es, by simp only [hd, hmc, Except.bind]⟩
      | ok s2 =>
        cases hs : reuse_sources ((old_r.get_file sf).2) sf ((old_r.get_file sf).1)
            s2 ((old_r.get_file sf).1).sources with
        | error es => exact ⟨es, by simp only [hd, hmc, hs, Except.bind]⟩
        | ok s3 =>
          obtain ⟨es, hh⟩ := reuse_nodes_missing ((old_r.get_file sf).2) sf
            ((old_r.get_file sf).1) id h1' h2' ((old_r.get_file sf).1).nodes s3 hin'
          exact ⟨es, by simp only [hd, hmc, hs, hh, Except.bind]⟩
  · intro nm hin hmiss
    simp only [ParseResult.sanitized_update, hp]
    have hin' : nm ∈ ((old_r.get_file sf).1).patches := by
      rw [get_file_fst]; exact hin
    have hmiss' : mget ((old_r.get_file sf).2).patches nm = none := by
      rw [get_file_snd_patches]; exact hmiss
    cases hd : reuse_docs ((old_r.get_file sf).2) sf ((old_r.get_file sf).1)
        new_r ((old_r.get_file sf).1).docs with
    | error es => exact ⟨es, by simp only [hd, Except.bind]⟩
    | ok s1 =>
      cases hmc : reuse_macros ((old_r.get_file sf).2) sf ((old_r.get_file sf).1)
          s1 ((old_r.get_file sf).1).macros with
      | error es => exact ⟨es, by simp only [hd, hmc, Except.bind]⟩
      | ok s2 =>
        cases hs : reuse_sources ((old_r.get_file sf).2) sf ((old_r.get_file sf).1)
            s2 ((old_r.get_file sf).1).sources with
        | error es => exact ⟨es, by simp only [hd, hmc, hs, Except.bind]⟩
        | ok s3 =>
          cases hn : reuse_nodes ((old_r.get_file sf).2) sf ((old_r.get_file sf).1)
              s3 ((old_r.get_file sf).1).nodes with
          | error es => exact ⟨es, by simp only [hd, hmc, hs, hn, Except.bind]⟩
          | ok s4 =>
            obtain ⟨es, hh⟩ := reuse_patches_missing ((old_r.get_file sf).2) sf
              ((old_r.get_file sf).1) nm hmiss' ((old_r.get_file sf).1).patches s4 hin'
            exact ⟨es, by simp only [hd, hmc, hs, hn, hh, Except.bind]⟩
  · intro uid g h
    simp only [ParseResult._get_disabled, h]

/-- C4 witness: an old registry whose record for file_a references the
untracked id doc.missing makes sanitized_update raise a
CompilationException, and _get_disabled on an untracked id raises the
internal error. -/
theorem c4_consistency_guard_witness :
    (∃ st2 msg, empty_result.sanitized_update file_a c4_old =
      .error (.compilation msg, st2)) ∧
    ParseResult._get_disabled empty_result "model.x" file_a =
      .error (.internal (disabled_missing_message "model.x")) := by
  constructor
  · exact (c4_consistency_guard empty_result c4_old file_a "models/a.sql" rfl).1
      "doc.missing" (by decide) rfl
  · exact (c4_consistency_guard empty_result c4_old file_a "models/a.sql"
      rfl).2.2.2.2.2 "model.x" file_a rfl

/-! ### Registry-invariant lemmas (claim C9) -/

/-- Table growth is reflexive. -/
theorem table_le_refl {α : Type} (m : List (String × α)) : table_le m m :=
  fun _ h => h

/-- Setting a key only grows a table. -/
theorem table_le_mset {α : Type} (m : List (String × α)) (k : String) (v : α) :
    table_le m (mset m k v) :=
  fun k' h => mget_mset_isSome m k k' v h

/-- The reference condition is monotone under table growth. -/
theorem refs_ok_mono {r r2 : ParseResult} {sf : SourceFile}
    (hg : grows r r2) (h : refs_ok r sf) : refs_ok r2 sf := by
  obtain ⟨g1, g2, g3, g4, g5, g6⟩ := hg
  obtain ⟨h1, h2, h3, h4, h5⟩ := h
  refine ⟨?_, ?_, ?_, ?_, ?_⟩
  · intro id hid
    rcases h1 id hid with hx | hx
    · exact Or.inl (g1 id hx)
    · exact Or.inr (g6 id hx)
  · exact fun id hid => g2 id (h2 id hid)
  · exact fun id hid => g3 id (h3 id hid)
  · exact fun id hid => g4 id (h4 id hid)
  · exact fun nm hnm => g5 nm (h5 nm hnm)

/-- The reference condition depends only on the six artifact tables. -/
theorem refs_ok_congr (r2 r : ParseResult) (sf : SourceFile)
    (e1 : r2.nodes = r.nodes) (e2 : r2.sources = r.sources)
    (e3 : r2.docs = r.docs) (e4 : r2.macros = r.macros)
    (e5 : r2.patches = r.patches) (e6 : r2.disabled = r.disabled) :
    refs_ok r2 sf ↔ refs_ok r sf := by
  unfold refs_ok
  rw [e1, e2, e3, e4, e5, e6]

/-- The file index after mutate_file on a tracked file. -/
theorem mutate_file_files (mid : ParseResult) (f : SourceFile)
    (u : SourceFile → SourceFile) (key : String) (hk : f.search_key = some key) :
    (mid.mutate_file f u).files =
      mset mid.files key (u (record_of mid.files f)) := by
  rw [mutate_file_some mid f u key hk]

/-- The canonical record of a tracked file is the stored one. -/
theorem record_of_tracked (files : List (String × SourceFile))
    (f sf : SourceFile) (key : String) (hk : f.search_key = some key)
    (hm : mget files key = some sf) : record_of files f = sf := by
  simp [record_of, hk, hm]

/-- The canonical record of an untracked file is the file itself. -/
theorem record_of_untracked (files : List (String × SourceFile))
    (f : SourceFile) (key : String) (hk : f.search_key = some key)
    (hm : mget files key = none) : record_of files f = f := by
  simp [record_of, hk, hm]

/-- mutate_file preserves the registry invariant whenever the passed file's
record satisfies the reference condition and the update preserves it. -/
theorem mutate_file_registry_inv (mid : ParseResult) (f : SourceFile)
    (u : SourceFile → SourceFile)
    (hr : registry_inv mid) (hf : refs_ok mid f)
    (hu : ∀ sf, refs_ok mid sf → refs_ok mid (u sf)) :
    registry_inv (mid.mutate_file f u) := by
  intro key sf hget
  rw [refs_ok_congr (mid.mutate_file f u) mid sf (mutate_file_nodes mid f u)
    (mutate_file_sources mid f u) (mutate_file_docs mid f u)
    (mutate_file_macros mid f u) (mutate_file_patches mid f u)
    (mutate_file_disabled mid f u)]
  cases hk : f.search_key with
  | none =>
    rw [mutate_file_none mid f u hk] at hget
    exact hr key sf hget
  | some key2 =>
    rw [mutate_file_files mid f u key2 hk] at hget
    by_cases hkey : key = key2
    · subst hkey
      rw [mget_mset_self] at hget
      injection hget with hget
      subst hget
      apply hu
      cases hm : mget mid.files key with
      | none =>
        rw [record_of_untracked mid.files f key hk hm]
        exact hf
      | some stored =>
        rw [record_of_tracked mid.files f stored key hk hm]
        exact hr key stored hm
    · rw [mget_mset_ne mid.files key2 key _ hkey] at hget
      exact hr key sf hget

/-- Appending a doc id present in the docs table preserves the reference
condition and the invariant across the owning-record append. -/
theorem preserve_docs_step (mid : ParseResult) (f : SourceFile) (id : String)
    (hpres : (mget mid.docs id).isSome = true)
    (hr : registry_inv mid) (hf : refs_ok mid f) :
    registry_inv (mid.mutate_file f (fun sf => { sf with docs := sf.docs ++ [id] })) ∧
    refs_ok (mid.mutate_file f (fun sf => { sf with docs := sf.docs ++ [id] })) f := by
  have hu : ∀ sf, refs_ok mid sf →
      refs_ok mid { sf with docs := sf.docs ++ [id] } := by
    intro sf hsf
    obtain ⟨h1, h2, h3, h4, h5⟩ := hsf
    refine ⟨h1, h2, ?_, h4, h5⟩
    intro i hi
    rcases List.mem_append.mp hi with hx | hx
    · exact h3 i hx
    · rw [List.mem_singleton] at hx
      subst hx
      exact hpres
  refine ⟨mutate_file_registry_inv mid f _ hr hf hu, ?_⟩
  exact (refs_ok_congr _ mid f (mutate_file_nodes mid f _)
    (mutate_file_sources mid f _) (mutate_file_docs mid f _)
    (mutate_file_macros mid f _) (mutate_file_patches mid f _)
    (mutate_file_disabled mid f _)).mpr hf

/-- Appending a macro id present in the macros table preserves the
reference condition and the invariant. -/
theorem preserve_macros_step (mid : ParseResult) (f : SourceFile) (id : String)
    (hpres : (mget mid.macros id).isSome = true)
    (hr : registry_inv mid) (hf : refs_ok mid f) :
    registry_inv (mid.mutate_file f (fun sf => { sf with macros := sf.macros ++ [id] })) ∧
    refs_ok (mid.mutate_file f (fun sf => { sf with macros := sf.macros ++ [id] })) f := by
  have hu : ∀ sf, refs_ok mid sf →
      refs_ok mid { sf with macros := sf.macros ++ [id] } := by
    intro sf hsf
    obtain ⟨h1, h2, h3, h4, h5⟩ := hsf
    refine ⟨h1, h2, h3, ?_, h5⟩
    intro i hi
    rcases List.mem_append.mp hi with hx | hx
    · exact h4 i hx
    · rw [List.mem_singleton] at hx
      subst hx
      exact hpres
  refine ⟨mutate_file_registry_inv mid f _ hr hf hu, ?_⟩
  exact (refs_ok_congr _ mid f (mutate_file_nodes mid f _)
    (mutate_file_sources mid f _) (mutate_file_docs mid f _)
    (mutate_file_macros mid f _) (mutate_file_patches mid f _)
    (mutate_file_disabled mid f _)).mpr hf

/-- Appending a source id present in the sources table preserves the
reference condition and the invariant. -/
theorem preserve_sources_step (mid : ParseResult) (f : SourceFile) (id : String)
    (hpres : (mget mid.sources id).isSome = true)
    (hr : registry_inv mid) (hf : refs_ok mid f) :
    registry_inv (mid.mutate_file f (fun sf => { sf with sources := sf.sources ++ [id] })) ∧
    refs_ok (mid.mutate_file f (fun sf => { sf with sources := sf.sources ++ [id] })) f := by
  have hu : ∀ sf, refs_ok mid sf →
      refs_ok mid { sf with sources := sf.sources ++ [id] } := by
    intro sf hsf
    obtain ⟨h1, h2, h3, h4, h5⟩ := hsf
    refine ⟨h1, ?_, h3, h4, h5⟩
    intro i hi
    rcases List.mem_append.mp hi with hx | hx
    · exact h2 i hx
    · rw [List.mem_singleton] at hx
      subst hx
      exact hpres
  refine ⟨mutate_file_registry_inv mid f _ hr hf hu, ?_⟩
  exact (refs_ok_congr _ mid f (mutate_file_nodes mid f _)
    (mutate_file_sources mid f _) (mutate_file_docs mid f _)
    (mutate_file_macros mid f _) (mutate_file_patches mid f _)
    (mutate_file_disabled mid f _)).mpr hf

/-- Appending a patch name present in the patches table preserves the
reference condition and the invariant. -/
theorem preserve_patches_step (mid : ParseResult) (f : SourceFile) (nm : String)
    (hpres : (mget mid.patches nm).isSome = true)
    (hr : registry_inv mid) (hf : refs_ok mid f) :
    registry_inv (mid.mutate_file f (fun sf => { sf with patches := sf.patches ++ [nm] })) ∧
    refs_ok (mid.mutate_file f (fun sf => { sf with patches := sf.patches ++ [nm] })) f := by
  have hu : ∀ sf, refs_ok mid sf →
      refs_ok mid { sf with patches := sf.patches ++ [nm] } := by
    intro sf hsf
    obtain ⟨h1, h2, h3, h4, h5⟩ := hsf
    refine ⟨h1, h2, h3, h4, ?_⟩
    intro i hi
    rcases List.mem_append.mp hi with hx | hx
    · exact h5 i hx
    · rw [List.mem_singleton] at hx
      subst hx
      exact hpres
  refine ⟨mutate_file_registry_inv mid f _ hr hf hu, ?_⟩
  exact (refs_ok_congr _ mid f (mutate_file_nodes mid f _)
    (mutate_file_sources mid f _) (mutate_file_docs mid f _)
    (mutate_file_macros mid f _) (mutate_file_patches mid f _)
    (mutate_file_disabled mid f _)).mpr hf

/-- Appending a node id present in the nodes table or the disabled table
preserves the reference condition and the invariant. -/
theorem preserve_nodes_step (mid : ParseResult) (f : SourceFile) (id : String)
    (hpres : (mget mid.nodes id).isSome = true ∨
      (mget mid.disabled id).isSome = true)
    (hr : registry_inv mid) (hf : refs_ok mid f) :
    registry_inv (mid.mutate_file f (fun sf => { sf with nodes := sf.nodes ++ [id] })) ∧
    refs_ok (mid.mutate_file f (fun sf => { sf with nodes := sf.nodes ++ [id] })) f := by
  have hu : ∀ sf, refs_ok mid sf →
      refs_ok mid { sf with nodes := sf.nodes ++ [id] } := by
    intro sf hsf
    obtain ⟨h1, h2, h3, h4, h5⟩ := hsf
    refine ⟨?_, h2, h3, h4, h5⟩
    intro i hi
    rcases List.mem_append.mp hi with hx | hx
    · exact h1 i hx
    · rw [List.mem_singleton] at hx
      subst hx
      exact hpres
  refine ⟨mutate_file_registry_inv mid f _ hr hf hu, ?_⟩
  exact (refs_ok_congr _ mid f (mutate_file_nodes mid f _)
    (mutate_file_sources mid f _) (mutate_file_docs mid f _)
    (mutate_file_macros mid f _) (mutate_file_patches mid f _)
    (mutate_file_disabled mid f _)).mpr hf

/-- add_doc preserves the registry invariant and the file's reference
condition. -/
theorem add_doc_preserves (r : ParseResult) (f : SourceFile)
    (d : ParsedDocumentation) (hr : registry_inv r) (hf : refs_ok r f) :
    registry_inv (r.add_doc f d) ∧ refs_ok (r.add_doc f d) f := by
  have hgrow : grows r { r with docs := mset r.docs d.unique_id d } :=
    ⟨table_le_refl _, table_le_refl _, table_le_mset _ _ _, table_le_refl _,
      table_le_refl _, table_le_refl _⟩
  have hr_mid : registry_inv { r with docs := mset r.docs d.unique_id d } := by
    intro key sf hget
    exact refs_ok_mono hgrow (hr key sf hget)
  have hf_mid : refs_ok { r with docs := mset r.docs d.unique_id d } f :=
    refs_ok_mono hgrow hf
  have hpres : (mget ({ r with docs := mset r.docs d.unique_id d }).docs
      d.unique_id).isSome = true := by
    show (mget (mset r.docs d.unique_id d) d.unique_id).isSome = true
    rw [mget_mset_self]
    rfl
  exact preserve_docs_step { r with docs := mset r.docs d.unique_id d } f
    d.unique_id hpres hr_mid hf_mid

/-- Macro registration preserves the registry invariant and the file's
reference condition. -/
theorem addMacro_preserves (r : ParseResult) (f : SourceFile)
    (m : ParsedMacro) (hr : registry_inv r) (hf : refs_ok r f) :
    registry_inv (ParseResult.addMacro r f m) ∧
    refs_ok (ParseResult.addMacro r f m) f := by
  have hgrow : grows r { r with macros := mset r.macros m.unique_id m } :=
    ⟨table_le_refl _, table_le_refl _, table_le_refl _, table_le_mset _ _ _,
      table_le_refl _, table_le_refl _⟩
  have hr_mid : registry_inv { r with macros := mset r.macros m.unique_id m } := by
    intro key sf hget
    exact refs_ok_mono hgrow (hr key sf hget)
  have hf_mid : refs_ok { r with macros := mset r.macros m.unique_id m } f :=
    refs_ok_mono hgrow hf
  have hpres : (mget ({ r with macros := mset r.macros m.unique_id m }).macros
      m.unique_id).isSome = true := by
    show (mget (mset r.macros m.unique_id m) m.unique_id).isSome = true
    rw [mget_mset_self]
    rfl
  exact preserve_macros_step { r with macros := mset r.macros m.unique_id m } f
    m.unique_id hpres hr_mid hf_mid

/-- add_disabled preserves the registry invariant and the file's reference
condition. -/
theorem add_disabled_preserves (r : ParseResult) (f : SourceFile)
    (v : ParsedNode) (hr : registry_inv r) (hf : refs_ok r f) :
    registry_inv (r.add_disabled f v) ∧ refs_ok (r.add_disabled f v) f := by
  cases hm : mget r.disabled v.unique_id with
  | none =>
    have hgrow : grows r { r with disabled := mset r.disabled v.unique_id [v] } :=
      ⟨table_le_refl _, table_le_refl _, table_le_refl _, table_le_refl _,
        table_le_refl _, table_le_mset _ _ _⟩
    have hr_mid : registry_inv
        { r with disabled := mset r.disabled v.unique_id [v] } := by
      intro key sf hget
      exact refs_ok_mono hgrow (hr key sf hget)
    have hf_mid : refs_ok { r with disabled := mset r.disabled v.unique_id [v] } f :=
      refs_ok_mono hgrow hf
    have hpres : (mget ({ r with disabled := mset r.disabled v.unique_id [v] }).disabled
        v.unique_id).isSome = true := by
      show (mget (mset r.disabled v.unique_id [v]) v.unique_id).isSome = true
      rw [mget_mset_self]
      rfl
    have hdef : r.add_disabled f v =
        ({ r with disabled := mset r.disabled v.unique_id [v] }).mutate_file f
          (fun sf => { sf with nodes := sf.nodes ++ [v.unique_id] }) := by
      simp only [ParseResult.add_disabled, hm]
    rw [hdef]
    exact preserve_nodes_step _ f v.unique_id (Or.inr hpres) hr_mid hf_mid
  | some l =>
    have hgrow : grows r
        { r with disabled := mset r.disabled v.unique_id (l ++ [v]) } :=
      ⟨table_le_refl _, table_le_refl _, table_le_refl _, table_le_refl _,
        table_le_refl _, table_le_mset _ _ _⟩
    have hr_mid : registry_inv
        { r with disabled := mset r.disabled v.unique_id (l ++ [v]) } := by
      intro key sf hget
      exact refs_ok_mono hgrow (hr key sf hget)
    have hf_mid : refs_ok
        { r with disabled := mset r.disabled v.unique_id (l ++ [v]) } f :=
      refs_ok_mono hgrow hf
    have hpres : (mget ({ r with
        disabled := mset r.disabled v.unique_id (l ++ [v]) }).disabled
        v.unique_id).isSome = true := by
      show (mget (mset r.disabled v.unique_id (l ++ [v])) v.unique_id).isSome = true
      rw [mget_mset_self]
      rfl
    have hdef : r.add_disabled f v =
        ({ r with disabled := mset r.disabled v.unique_id (l ++ [v]) }).mutate_file f
          (fun sf => { sf with nodes := sf.nodes ++ [v.unique_id] }) := by
      simp only [ParseResult.add_disabled, hm]
    rw [hdef]
    exact preserve_nodes_step _ f v.unique_id (Or.inr hpres) hr_mid hf_mid

/-- A successful add_node preserves the registry invariant and the file's
reference condition. -/
theorem add_node_preserves (r : ParseResult) (f : SourceFile)
    (n : ManifestNodes) (r' : ParseResult) (h : r.add_node f n = .ok r')
    (hr : registry_inv r) (hf : refs_ok r f) :
    registry_inv r' ∧ refs_ok r' f := by
  cases hm : mget r.nodes n.unique_id with
  | some ex =>
    simp only [ParseResult.add_node, _check_duplicates, hm] at h
    exact Except.noConfusion h
  | none =>
    simp only [ParseResult.add_node, _check_duplicates, hm, Except.ok.injEq] at h
    subst h
    have hgrow : grows r { r with nodes := mset r.nodes n.unique_id n } :=
      ⟨table_le_mset _ _ _, table_le_refl _, table_le_refl _, table_le_refl _,
        table_le_refl _, table_le_refl _⟩
    have hr_mid : registry_inv { r with nodes := mset r.nodes n.unique_id n } := by
      intro key sf hget
      exact refs_ok_mono hgrow (hr key sf hget)
    have hf_mid : refs_ok { r with nodes := mset r.nodes n.unique_id n } f :=
      refs_ok_mono hgrow hf
    have hpres : (mget ({ r with nodes := mset r.nodes n.unique_id n }).nodes
        n.unique_id).isSome = true := by
      show (mget (mset r.nodes n.unique_id n) n.unique_id).isSome = true
      rw [mget_mset_self]
      rfl
    exact preserve_nodes_step _ f n.unique_id (Or.inl hpres) hr_mid hf_mid

/-- A successful add_source preserves the registry invariant and the
file's reference condition. -/
theorem add_source_preserves (r : ParseResult) (f : SourceFile)
    (s : ParsedSourceDefinition) (r' : ParseResult)
    (h : r.add_source f s = .ok r')
    (hr : registry_inv r) (hf : refs_ok r f) :
    registry_inv r' ∧ refs_ok r' f := by
  cases hm : mget r.sources s.unique_id with
  | some ex =>
    simp only [ParseResult.add_source, _check_duplicates, hm] at h
    exact Except.noConfusion h
  | none =>
    simp only [ParseResult.add_source, _check_duplicates, hm, Except.ok.injEq] at h
    subst h
    have hgrow : grows r { r with sources := mset r.sources s.unique_id s } :=
      ⟨table_le_refl _, table_le_mset _ _ _, table_le_refl _, table_le_refl _,
        table_le_refl _, table_le_refl _⟩
    have hr_mid : registry_inv { r with sources := mset r.sources s.unique_id s } := by
      intro key sf hget
      exact refs_ok_mono hgrow (hr key sf hget)
    have hf_mid : refs_ok { r with sources := mset r.sources s.unique_id s } f :=
      refs_ok_mono hgrow hf
    have hpres : (mget ({ r with sources := mset r.sources s.unique_id s }).sources
        s.unique_id).isSome = true := by
      show (mget (mset r.sources s.unique_id s) s.unique_id).isSome = true
      rw [mget_mset_self]
      rfl
    exact preserve_sources_step _ f s.unique_id hpres hr_mid hf_mid

/-- A successful add_patch preserves the registry invariant and the file's
reference condition. -/
theorem add_patch_preserves (r : ParseResult) (f : SourceFile)
    (q : ParsedNodePatch) (r' : ParseResult) (h : r.add_patch f q = .ok r')
    (hr : registry_inv r) (hf : refs_ok r f) :
    registry_inv r' ∧ refs_ok r' f := by
  cases hm : mget r.patches q.name with
  | some ex =>
    simp only [ParseResult.add_patch, hm] at h
    exact Except.noConfusion h
  | none =>
    simp only [ParseResult.add_patch, hm, Except.ok.injEq] at h
    subst h
    have hgrow : grows r { r with patches := mset r.patches q.name q } :=
      ⟨table_le_refl _, table_le_refl _, table_le_refl _, table_le_refl _,
        table_le_mset _ _ _, table_le_refl _⟩
    have hr_mid : registry_inv { r with patches := mset r.patches q.name q } := by
      intro key sf hget
      exact refs_ok_mono hgrow (hr key sf hget)
    have hf_mid : refs_ok { r with patches := mset r.patches q.name q } f :=
      refs_ok_mono hgrow hf
    have hpres : (mget ({ r with patches := mset r.patches q.name q }).patches
        q.name).isSome = true := by
      show (mget (mset r.patches q.name q) q.name).isSome = true
      rw [mget_mset_self]
      rfl
    exact preserve_patches_step _ f q.name hpres hr_mid hf_mid

/-- Folding add_disabled over a variant list preserves the invariant and
the file's reference condition. -/
theorem fold_add_disabled_preserves (f : SourceFile) (l : List ParsedNode) :
    ∀ st : ParseResult, registry_inv st → refs_ok st f →
      registry_inv (l.foldl (fun acc m => acc.add_disabled f m) st) ∧
      refs_ok (l.foldl (fun acc m => acc.add_disabled f m) st) f := by
  induction l with
  | nil => exact fun st hr hf => ⟨hr, hf⟩
  | cons v t ih =>
    intro st hr hf
    simp only [List.foldl_cons]
    obtain ⟨hr1, hf1⟩ := add_disabled_preserves st f v hr hf
    exact ih (st.add_disabled f v) hr1 hf1

/-- The docs reuse loop preserves the invariant and the file's reference
condition on success. -/
theorem reuse_docs_inv (old : ParseResult) (f ofile : SourceFile)
    (seq : List String) :
    ∀ st st', registry_inv st → refs_ok st f →
      reuse_docs old f ofile st seq = .ok st' →
      registry_inv st' ∧ refs_ok st' f := by
  induction seq with
  | nil =>
    intro st st' hr hf heq
    simp only [reuse_docs] at heq
    injection heq with heq
    subst heq
    exact ⟨hr, hf⟩
  | cons h t ih =>
    intro st st' hr hf heq
    cases hm : mget old.docs h with
    | none =>
      simp only [reuse_docs, _expect_value, hm] at heq
      exact Except.noConfusion heq
    | some d =>
      simp only [reuse_docs, _expect_value, hm] at heq
      obtain ⟨hr1, hf1⟩ := add_doc_preserves st f d hr hf
      exact ih (st.add_doc f d) st' hr1 hf1 heq

/-- The macros reuse loop preserves the invariant and the file's reference
condition on success. -/
theorem reuse_macros_inv (old : ParseResult) (f ofile : SourceFile)
    (seq : List String) :
    ∀ st st', registry_inv st → refs_ok st f →
      reuse_macros old f ofile st seq = .ok st' →
      registry_inv st' ∧ refs_ok st' f := by
  induction seq with
  | nil =>
    intro st st' hr hf heq
    simp only [reuse_macros] at heq
    injection heq with heq
    subst heq
    exact ⟨hr, hf⟩
  | cons h t ih =>
    intro st st' hr hf heq
    cases hm : mget old.macros h with
    | none =>
      simp only [reuse_macros, _expect_value, hm] at heq
      exact Except.noConfusion heq
    | some m =>
      simp only [reuse_macros, _expect_value, hm] at heq
      obtain ⟨hr1, hf1⟩ := addMacro_preserves st f m hr hf
      exact ih (ParseResult.addMacro st f m) st' hr1 hf1 heq

/-- The sources reuse loop preserves the invariant and the file's
reference condition on success. -/
theorem reuse_sources_inv (old : ParseResult) (f ofile : SourceFile)
    (seq : List String) :
    ∀ st st', registry_inv st → refs_ok st f →
      reuse_sources old f ofile st seq = .ok st' →
      registry_inv st' ∧ refs_ok st' f := by
  induction seq with
  | nil =>
    intro st st' hr hf heq
    simp only [reuse_sources] at heq
    injection heq with heq
    subst heq
    exact ⟨hr, hf⟩
  | cons h t ih =>
    intro st st' hr hf heq
    cases hm : mget old.sources h with
    | none =>
      simp only [reuse_sources, _expect_value, hm] at heq
      exact Except.noConfusion heq
    | some sv =>
      simp only [reuse_sources, _expect_value, hm] at heq
      cases ha : st.add_source f sv with
      | error es =>
        rw [ha] at heq
        exact Except.noConfusion heq
      | ok st1 =>
        rw [ha] at heq
        obtain ⟨hr1, hf1⟩ := add_source_preserves st f sv st1 ha hr hf
        exact ih st1 st' hr1 hf1 heq

/-- The nodes reuse loop preserves the invariant and the file's reference
condition on success. -/
theorem reuse_nodes_inv (old : ParseResult) (f ofile : SourceFile)
    (seq : List String) :
    ∀ st st', registry_inv st → refs_ok st f →
      reuse_nodes old f ofile st seq = .ok st' →
      registry_inv st' ∧ refs_ok st' f := by
  induction seq with
  | nil =>
    intro st st' hr hf heq
    simp only [reuse_nodes] at heq
    injection heq with heq
    subst heq
    exact ⟨hr, hf⟩
  | cons h t ih =>
    intro st st' hr hf heq
    cases hm : mget old.nodes h with
    | some node =>
      simp only [reuse_nodes, hm] at heq
      cases ha : st.add_node f node with
      | error es =>
        rw [ha] at heq
        exact Except.noConfusion heq
      | ok st1 =>
        rw [ha] at heq
        obtain ⟨hr1, hf1⟩ := add_node_preserves st f node st1 ha hr hf
        exact ih st1 st' hr1 hf1 heq
    | none =>
      cases hd : mget old.disabled h with
      | none =>
        simp only [reuse_nodes, hm, hd] at heq
        exact Except.noConfusion heq
      | some l =>
        simp only [reuse_nodes, hm, hd, ParseResult._get_disabled] at heq
        obtain ⟨hr1, hf1⟩ := fold_add_disabled_preserves f
          (l.filter (fun n =>
            n.original_file_path == f.path.original_file_path)) st hr hf
        exact ih _ st' hr1 hf1 heq

/-- The patches reuse loop preserves the invariant and the file's
reference condition on success. -/
theorem reuse_patches_inv (old : ParseResult) (f ofile : SourceFile)
    (seq : List String) :
    ∀ st st', registry_inv st → refs_ok st f →
      reuse_patches old f ofile st seq = .ok st' →
      registry_inv st' ∧ refs_ok st' f := by
  induction seq with
  | nil =>
    intro st st' hr hf heq
    simp only [reuse_patches] at heq
    injection heq with heq
    subst heq
    exact ⟨hr, hf⟩
  | cons h t ih =>
    intro st st' hr hf heq
    cases hm : mget old.patches h with
    | none =>
      simp only [reuse_patches, _expect_value, hm] at heq
      exact Except.noConfusion heq
    | some q =>
      simp only [reuse_patches, _expect_value, hm] at heq
      cases ha : st.add_patch f q with
      | error es =>
        rw [ha] at heq
        exact Except.noConfusion heq
      | ok st1 =>
        rw [ha] at heq
        obtain ⟨hr1, hf1⟩ := add_patch_preserves st f q st1 ha hr hf
        exact ih st1 st' hr1 hf1 heq

/-! ### Claim C9 -/

/-- C9 counterexample: the claim as stated fails already for get_file: an
input record whose node sequence references an id present in no table is
inserted verbatim, breaking the invariant.  The invariant holds before the
call and fails after it. -/
theorem c9_counterexample :
    registry_inv empty_result ∧
    ¬ registry_inv ((empty_result.get_file ghost_file).2) := by
  constructor
  · intro key sf hget
    simp [empty_result, mget] at hget
  · intro H
    have hget : mget ((empty_result.get_file ghost_file).2).files "models/g.sql" =
        some ghost_file := by decide
    have hnode := (H "models/g.sql" ghost_file hget).1 "ghost.node" (by decide)
    rcases hnode with hx | hx
    · exact absurd hx (by decide)
    · exact absurd hx (by decide)

/-- C9 amended: provided the file record passed to the operation itself
satisfies the reference condition in the current registry (as every
freshly created record with empty sequences does), every registry
operation preserves the invariant that each id recorded in a stored file
record is a key of its table (nodes alternatively of disabled). -/
theorem c9_invariant_preserved (r old_r : ParseResult) (f : SourceFile)
    (hr : registry_inv r) (hf : refs_ok r f) :
    registry_inv ((r.get_file f).2) ∧
    (∀ n r', r.add_node f n = .ok r' → registry_inv r') ∧
    (∀ s r', r.add_source f s = .ok r' → registry_inv r') ∧
    (∀ v, registry_inv (r.add_disabled f v)) ∧
    (∀ m, registry_inv (ParseResult.addMacro r f m)) ∧
    (∀ d, registry_inv (r.add_doc f d)) ∧
    (∀ q r', r.add_patch f q = .ok r' → registry_inv r') ∧
    (∀ st b, r.sanitized_update f old_r = .ok (st, b) → registry_inv st) := by
  refine ⟨?_, ?_, ?_, ?_, ?_, ?_, ?_, ?_⟩
  · unfold ParseResult.get_file
    cases hk : f.search_key with
    | none => exact hr
    | some key =>
      cases hm : mget r.files key with
      | some sf => simp only [hm]; exact hr
      | none =>
        simp only [hm]
        intro key' sf hget
        have hget' : mget (mset r.files key f) key' = some sf := hget
        rw [refs_ok_congr { r with files := mset r.files key f } r sf
          rfl rfl rfl rfl rfl rfl]
        by_cases hkey : key' = key
        · subst hkey
          rw [mget_mset_self] at hget'
          injection hget' with hget'
          subst hget'
          exact hf
        · rw [mget_mset_ne r.files key key' f hkey] at hget'
          exact hr key' sf hget'
  · exact fun n r' h => (add_node_preserves r f n r' h hr hf).1
  · exact fun s r' h => (add_source_preserves r f s r' h hr hf).1
  · exact fun v => (add_disabled_preserves r f v hr hf).1
  · exact fun m => (addMacro_preserves r f m hr hf).1
  · exact fun d => (add_doc_preserves r f d hr hf).1
  · exact fun q r' h => (add_patch_preserves r f q r' h hr hf).1
  · intro st b heq
    cases hp : f.path with
    | remoteFile =>
      simp only [ParseResult.sanitized_update, hp, Except.ok.injEq,
        Prod.mk.injEq] at heq
      obtain ⟨h1, _⟩ := heq
      subst h1
      exact hr
    | localFile p =>
      simp only [ParseResult.sanitized_update, hp] at heq
      obtain ⟨s1, h1, heq⟩ := except_bind_ok heq
      obtain ⟨s2, h2, heq⟩ := except_bind_ok heq
      obtain ⟨s3, h3, heq⟩ := except_bind_ok heq
      obtain ⟨s4, h4, heq⟩ := except_bind_ok heq
      obtain ⟨s5, h5, heq⟩ := except_bind_ok heq
      simp only [Except.ok.injEq, Prod.mk.injEq] at heq
      obtain ⟨hst, _⟩ := heq
      subst hst
      obtain ⟨hr1, hf1⟩ := reuse_docs_inv ((old_r.get_file f).2) f
        ((old_r.get_file f).1) ((old_r.get_file f).1).docs r s1 hr hf h1
      obtain ⟨hr2, hf2⟩ := reuse_macros_inv ((old_r.get_file f).2) f
        ((old_r.get_file f).1) ((old_r.get_file f).1).macros s1 s2 hr1 hf1 h2
      obtain ⟨hr3, hf3⟩ := reuse_sources_inv ((old_r.get_file f).2) f
        ((old_r.get_file f).1) ((old_r.get_file f).1).sources s2 s3 hr2 hf2 h3
      obtain ⟨hr4, hf4⟩ := reuse_nodes_inv ((old_r.get_file f).2) f
        ((old_r.get_file f).1) ((old_r.get_file f).1).nodes s3 s4 hr3 hf3 h4
      obtain ⟨hr5, hf5⟩ := reuse_patches_inv ((old_r.get_file f).2) f
        ((old_r.get_file f).1) ((old_r.get_file f).1).patches s4 s5 hr4 hf4 h5
      exact hr5

/-- C9 witness: starting from the empty registry and a fresh record with
empty sequences, registering doc_a keeps the invariant. -/
theorem c9_invariant_preserved_witness :
    registry_inv (empty_result.add_doc file_a doc_a) := by
  have hr : registry_inv empty_result := by
    intro key sf hget
    simp [empty_result, mget] at hget
  have hf : refs_ok empty_result file_a := by
    refine ⟨?_, ?_, ?_, ?_, ?_⟩ <;> intro x hx <;> simp [file_a] at hx
  exact (c9_invariant_preserved empty_result empty_result file_a hr
    hf).2.2.2.2.2.1 doc_a

/-! ### Reuse characterization lemmas (claim C1) -/

/-- add_doc in mutate form. -/
theorem add_doc_eq (st : ParseResult) (f : SourceFile) (d : ParsedDocumentation) :
    st.add_doc f d =
      ({ st with docs := mset st.docs d.unique_id d }).mutate_file f
        (fun sf => { sf with docs := sf.docs ++ [d.unique_id] }) := rfl

/-- Macro registration in mutate form. -/
theorem addMacro_eq (st : ParseResult) (f : SourceFile) (m : ParsedMacro) :
    ParseResult.addMacro st f m =
      ({ st with macros := mset st.macros m.unique_id m }).mutate_file f
        (fun sf => { sf with macros := sf.macros ++ [m.unique_id] }) := rfl

/-- add_source succeeds on a fresh id, in mutate form. -/
theorem add_source_ok (st : ParseResult) (f : SourceFile)
    (s : ParsedSourceDefinition) (h : mget st.sources s.unique_id = none) :
    st.add_source f s =
      .ok (({ st with sources := mset st.sources s.unique_id s }).mutate_file f
        (fun sf => { sf with sources := sf.sources ++ [s.unique_id] })) := by
  simp only [ParseResult.add_source, _check_duplicates, h]

/-- add_node succeeds on a fresh id, in mutate form. -/
theorem add_node_ok (st : ParseResult) (f : SourceFile)
    (n : ManifestNodes) (h : mget st.nodes n.unique_id = none) :
    st.add_node f n =
      .ok (({ st with nodes := mset st.nodes n.unique_id n }).mutate_file f
        (fun sf => { sf with nodes := sf.nodes ++ [n.unique_id] })) := by
  simp only [ParseResult.add_node, _check_duplicates, h]

/-- add_patch succeeds on a fresh name, in mutate form. -/
theorem add_patch_ok (st : ParseResult) (f : SourceFile)
    (q : ParsedNodePatch) (h : mget st.patches q.name = none) :
    st.add_patch f q =
      .ok (({ st with patches := mset st.patches q.name q }).mutate_file f
        (fun sf => { sf with patches := sf.patches ++ [q.name] })) := by
  simp only [ParseResult.add_patch, h]

/-- add_disabled on a fresh id, in mutate form. -/
theorem add_disabled_eq_none (st : ParseResult) (f : SourceFile)
    (v : ParsedNode) (h : mget st.disabled v.unique_id = none) :
    st.add_disabled f v =
      ({ st with disabled := mset st.disabled v.unique_id [v] }).mutate_file f
        (fun sf => { sf with nodes := sf.nodes ++ [v.unique_id] }) := by
  simp only [ParseResult.add_disabled, h]

/-- The canonical record after add_doc on a tracked file. -/
theorem add_doc_record (st : ParseResult) (f : SourceFile)
    (d : ParsedDocumentation) (key : String) (hk : f.search_key = some key) :
    (st.add_doc f d).current_record f =
      { st.current_record f with
          docs := (st.current_record f).docs ++ [d.unique_id] } :=
  current_record_mutate _ f _ key hk

/-- The canonical record after macro registration on a tracked file. -/
theorem addMacro_record (st : ParseResult) (f : SourceFile)
    (m : ParsedMacro) (key : String) (hk : f.search_key = some key) :
    (ParseResult.addMacro st f m).current_record f =
      { st.current_record f with
          macros := (st.current_record f).macros ++ [m.unique_id] } :=
  current_record_mutate _ f _ key hk

/-- The docs reuse loop on a fully-cached, key-consistent sequence:
succeeds, touches only the docs table (copying the old values at the
sequence's ids) and appends the sequence to the canonical record's docs. -/
theorem reuse_docs_spec (old : ParseResult) (f ofile : SourceFile)
    (key : String) (hk : f.search_key = some key) (seq : List String) :
    ∀ st, (∀ id, id ∈ seq →
      ∃ d, mget old.docs id = some d ∧ d.unique_id = id) →
    ∃ st',
      reuse_docs old f ofile st seq = .ok st' ∧
      st'.nodes = st.nodes ∧ st'.sources = st.sources ∧
      st'.macros = st.macros ∧ st'.patches = st.patches ∧
      st'.disabled = st.disabled ∧
      (∀ id, mget st'.docs id =
        if id ∈ seq then mget old.docs id else mget st.docs id) ∧
      st'.current_record f =
        { st.current_record f with
            docs := (st.current_record f).docs ++ seq } := by
  induction seq with
  | nil =>
    intro st _
    refine ⟨st, rfl, rfl, rfl, rfl, rfl, rfl, ?_, ?_⟩
    · intro id; simp
    · rw [List.append_nil]
  | cons h t ih =>
    intro st hseq
    obtain ⟨d, hm, hd_uid⟩ := hseq h (List.mem_cons_self h t)
    obtain ⟨st', heq, e1, e2, e3, e4, e5, hdocs, hrec⟩ :=
      ih (st.add_doc f d) (fun id hid => hseq id (List.mem_cons_of_mem h hid))
    have hdtab : (st.add_doc f d).docs = mset st.docs d.unique_id d := by
      rw [add_doc_eq]
      exact mutate_file_docs _ f _
    refine ⟨st', ?_, ?_, ?_, ?_, ?_, ?_, ?_, ?_⟩
    · simp only [reuse_docs, _expect_value, hm]
      exact heq
    · rw [e1, add_doc_eq]
      exact mutate_file_nodes _ f _
    · rw [e2, add_doc_eq]
      exact mutate_file_sources _ f _
    · rw [e3, add_doc_eq]
      exact mutate_file_macros _ f _
    · rw [e4, add_doc_eq]
      exact mutate_file_patches _ f _
    · rw [e5, add_doc_eq]
      exact mutate_file_disabled _ f _
    · intro id
      rw [hdocs id]
      by_cases hit : id ∈ t
      · rw [if_pos hit, if_pos (List.mem_cons_of_mem h hit)]
      · by_cases hih : id = h
        · subst hih
          rw [if_neg hit, if_pos (List.mem_cons_self id t)]
          rw [hdtab, hd_uid, mget_mset_self, hm]
        · have hid : ¬ id ∈ h :: t := by
            intro hx
            rcases List.mem_cons.mp hx with hx1 | hx2
            · exact hih hx1
            · exact hit hx2
          rw [if_neg hit, if_neg hid]
          rw [hdtab, hd_uid]
          exact mget_mset_ne st.docs h id d hih
    · rw [hrec, add_doc_record st f d key hk, hd_uid, List.append_assoc]
      rfl

/-- The macros reuse loop on a fully-cached, key-consistent sequence. -/
theorem reuse_macros_spec (old : ParseResult) (f ofile : SourceFile)
    (key : String) (hk : f.search_key = some key) (seq : List String) :
    ∀ st, (∀ id, id ∈ seq →
      ∃ m, mget old.macros id = some m ∧ m.unique_id = id) →
    ∃ st',
      reuse_macros old f ofile st seq = .ok st' ∧
      st'.nodes = st.nodes ∧ st'.sources = st.sources ∧
      st'.docs = st.docs ∧ st'.patches = st.patches ∧
      st'.disabled = st.disabled ∧
      (∀ id, mget st'.macros id =
        if id ∈ seq then mget old.macros id else mget st.macros id) ∧
      st'.current_record f =
        { st.current_record f with
            macros := (st.current_record f).macros ++ seq } := by
  induction seq with
  | nil =>
    intro st _
    refine ⟨st, rfl, rfl, rfl, rfl, rfl, rfl, ?_, ?_⟩
    · intro id; simp
    · rw [List.append_nil]
  | cons h t ih =>
    intro st hseq
    obtain ⟨m, hm, hm_uid⟩ := hseq h (List.mem_cons_self h t)
    obtain ⟨st', heq, e1, e2, e3, e4, e5, hmac, hrec⟩ :=
      ih (ParseResult.addMacro st f m)
        (fun id hid => hseq id (List.mem_cons_of_mem h hid))
    have hmtab : (ParseResult.addMacro st f m).macros =
        mset st.macros m.unique_id m := by
      rw [addMacro_eq]
      exact mutate_file_macros _ f _
    refine ⟨st', ?_, ?_, ?_, ?_, ?_, ?_, ?_, ?_⟩
    · simp only [reuse_macros, _expect_value, hm]
      exact heq
    · rw [e1, addMacro_eq]
      exact mutate_file_nodes _ f _
    · rw [e2, addMacro_eq]
      exact mutate_file_sources _ f _
    · rw [e3, addMacro_eq]
      exact mutate_file_docs _ f _
    · rw [e4, addMacro_eq]
      exact mutate_file_patches _ f _
    · rw [e5, addMacro_eq]
      exact mutate_file_disabled _ f _
    · intro id
      rw [hmac id]
      by_cases hit : id ∈ t
      · rw [if_pos hit, if_pos (List.mem_cons_of_mem h hit)]
      · by_cases hih : id = h
        · subst hih
          rw [if_neg hit, if_pos (List.mem_cons_self id t)]
          rw [hmtab, hm_uid, mget_mset_self, hm]
        · have hid : ¬ id ∈ h :: t := by
            intro hx
            rcases List.mem_cons.mp hx with hx1 | hx2
            · exact hih hx1
            · exact hit hx2
          rw [if_neg hit, if_neg hid]
          rw [hmtab, hm_uid]
          exact mget_mset_ne st.macros h id m hih
    · rw [hrec, addMacro_record st f m key hk, hm_uid, List.append_assoc]
      rfl

/-- The sources reuse loop on a fully-cached, key-consistent,
duplicate-free sequence whose ids are fresh in the new registry. -/
theorem reuse_sources_spec (old : ParseResult) (f ofile : SourceFile)
    (key : String) (hk : f.search_key = some key) (seq : List String) :
    ∀ st, seq.Nodup →
    (∀ id, id ∈ seq →
      (∃ s, mget old.sources id = some s ∧ s.unique_id = id) ∧
      mget st.sources id = none) →
    ∃ st',
      reuse_sources old f ofile st seq = .ok st' ∧
      st'.nodes = st.nodes ∧ st'.docs = st.docs ∧
      st'.macros = st.macros ∧ st'.patches = st.patches ∧
      st'.disabled = st.disabled ∧
      (∀ id, mget st'.sources id =
        if id ∈ seq then mget old.sources id else mget st.sources id) ∧
      st'.current_record f =
        { st.current_record f with
            sources := (st.current_record f).sources ++ seq } := by
  induction seq with
  | nil =>
    intro st _ _
    refine ⟨st, rfl, rfl, rfl, rfl, rfl, rfl, ?_, ?_⟩
    · intro id; simp
    · rw [List.append_nil]
  | cons h t ih =>
    intro st hnd hseq
    obtain ⟨⟨s, hm, hs_uid⟩, hfresh⟩ := hseq h (List.mem_cons_self h t)
    have hfresh' : mget st.sources s.unique_id = none := by
      rw [hs_uid]; exact hfresh
    have hok := add_source_ok st f s hfresh'
    have hnotin : ¬ h ∈ t := (List.nodup_cons.mp hnd).1
    have hndt : t.Nodup := (List.nodup_cons.mp hnd).2
    have hstab : (({ st with sources := mset st.sources s.unique_id s }).mutate_file f
        (fun sf => { sf with sources := sf.sources ++ [s.unique_id] })).sources =
        mset st.sources s.unique_id s :=
      mutate_file_sources _ f _
    have htail : ∀ id, id ∈ t →
        (∃ sv, mget old.sources id = some sv ∧ sv.unique_id = id) ∧
        mget (({ st with sources := mset st.sources s.unique_id s }).mutate_file f
          (fun sf => { sf with sources := sf.sources ++ [s.unique_id] })).sources
          id = none := by
      intro id hid
      refine ⟨(hseq id (List.mem_cons_of_mem h hid)).1, ?_⟩
      rw [hstab, hs_uid]
      have hne : id ≠ h := fun hcon => hnotin (hcon ▸ hid)
      rw [mget_mset_ne st.sources h id s hne]
      exact (hseq id (List.mem_cons_of_mem h hid)).2
    obtain ⟨st', heq, e1, e2, e3, e4, e5, hsrc, hrec⟩ :=
      ih (({ st with sources := mset st.sources s.unique_id s }).mutate_file f
        (fun sf => { sf with sources := sf.sources ++ [s.unique_id] })) hndt htail
    refine ⟨st', ?_, ?_, ?_, ?_, ?_, ?_, ?_, ?_⟩
    · simp only [reuse_sources, _expect_value, hm, hok]
      exact heq
    · rw [e1]
      exact mutate_file_nodes _ f _
    · rw [e2]
      exact mutate_file_docs _ f _
    · rw [e3]
      exact mutate_file_macros _ f _
    · rw [e4]
      exact mutate_file_patches _ f _
    · rw [e5]
      exact mutate_file_disabled _ f _
    · intro id
      rw [hsrc id]
      by_cases hit : id ∈ t
      · rw [if_pos hit, if_pos (List.mem_cons_of_mem h hit)]
      · by_cases hih : id = h
        · subst hih
          rw [if_neg hit, if_pos (List.mem_cons_self id t)]
          rw [hstab, hs_uid, mget_mset_self, hm]
        · have hid : ¬ id ∈ h :: t := by
            intro hx
            rcases List.mem_cons.mp hx with hx1 | hx2
            · exact hih hx1
            · exact hit hx2
          rw [if_neg hit, if_neg hid]
          rw [hstab, hs_uid]
          exact mget_mset_ne st.sources h id s hih
    · rw [hrec, current_record_mutate _ f _ key hk, hs_uid, List.append_assoc]
      rfl

/-- The patches reuse loop on a fully-cached, key-consistent,
duplicate-free sequence whose names are fresh in the new registry. -/
theorem reuse_patches_spec (old : ParseResult) (f ofile : SourceFile)
    (key : String) (hk : f.search_key = some key) (seq : List String) :
    ∀ st, seq.Nodup →
    (∀ nm, nm ∈ seq →
      (∃ q, mget old.patches nm = some q ∧ q.name = nm) ∧
      mget st.patches nm = none) →
    ∃ st',
      reuse_patches old f ofile st seq = .ok st' ∧
      st'.nodes = st.nodes ∧ st'.docs = st.docs ∧
      st'.macros = st.macros ∧ st'.sources = st.sources ∧
      st'.disabled = st.disabled ∧
      (∀ nm, mget st'.patches nm =
        if nm ∈ seq then mget old.patches nm else mget st.patches nm) ∧
      st'.current_record f =
        { st.current_record f with
            patches := (st.current_record f).patches ++ seq } := by
  induction seq with
  | nil =>
    intro st _ _
    refine ⟨st, rfl, rfl, rfl, rfl, rfl, rfl, ?_, ?_⟩
    · intro nm; simp
    · rw [List.append_nil]
  | cons h t ih =>
    intro st hnd hseq
    obtain ⟨⟨q, hm, hq_nm⟩, hfresh⟩ := hseq h (List.mem_cons_self h t)
    have hfresh' : mget st.patches q.name = none := by
      rw [hq_nm]; exact hfresh
    have hok := add_patch_ok st f q hfresh'
    have hnotin : ¬ h ∈ t := (List.nodup_cons.mp hnd).1
    have hndt : t.Nodup := (List.nodup_cons.mp hnd).2
    have hptab : (({ st with patches := mset st.patches q.name q }).mutate_file f
        (fun sf => { sf with patches := sf.patches ++ [q.name] })).patches =
        mset st.patches q.name q :=
      mutate_file_patches _ f _
    have htail : ∀ nm, nm ∈ t →
        (∃ qv, mget old.patches nm = some qv ∧ qv.name = nm) ∧
        mget (({ st with patches := mset st.patches q.name q }).mutate_file f
          (fun sf => { sf with patches := sf.patches ++ [q.name] })).patches
          nm = none := by
      intro nm hid
      refine ⟨(hseq nm (List.mem_cons_of_mem h hid)).1, ?_⟩
      rw [hptab, hq_nm]
      have hne : nm ≠ h := fun hcon => hnotin (hcon ▸ hid)
      rw [mget_mset_ne st.patches h nm q hne]
      exact (hseq nm (List.mem_cons_of_mem h hid)).2
    obtain ⟨st', heq, e1, e2, e3, e4, e5, hpat, hrec⟩ :=
      ih (({ st with patches := mset st.patches q.name q }).mutate_file f
        (fun sf => { sf with patches := sf.patches ++ [q.name] })) hndt htail
    refine ⟨st', ?_, ?_, ?_, ?_, ?_, ?_, ?_, ?_⟩
    · simp only [reuse_patches, _expect_value, hm, hok]
      exact heq
    · rw [e1]
      exact mutate_file_nodes _ f _
    · rw [e2]
      exact mutate_file_docs _ f _
    · rw [e3]
      exact mutate_file_macros _ f _
    · rw [e4]
      exact mutate_file_sources _ f _
    · rw [e5]
      exact mutate_file_disabled _ f _
    · intro nm
      rw [hpat nm]
      by_cases hit : nm ∈ t
      · rw [if_pos hit, if_pos (List.mem_cons_of_mem h hit)]
      · by_cases hih : nm = h
        · subst hih
          rw [if_neg hit, if_pos (List.mem_cons_self nm t)]
          rw [hptab, hq_nm, mget_mset_self, hm]
        · have hid : ¬ nm ∈ h :: t := by
            intro hx
            rcases List.mem_cons.mp hx with hx1 | hx2
            · exact hih hx1
            · exact hit hx2
          rw [if_neg hit, if_neg hid]
          rw [hptab, hq_nm]
          exact mget_mset_ne st.patches h nm q hih
    · rw [hrec, current_record_mutate _ f _ key hk, hq_nm, List.append_assoc]
      rfl

/-- The nodes reuse loop on a duplicate-free sequence in which every id is
either an active cached node (key-consistent and fresh in the new
registry) or a disabled id (fresh in the new disabled table) with exactly
one key-consistent variant matching the file's original path: succeeds,
copies active nodes verbatim, installs exactly the matching disabled
variants, and appends the sequence to the canonical record's nodes. -/
theorem reuse_nodes_spec (old : ParseResult) (f ofile : SourceFile)
    (key p : String) (hk : f.search_key = some key)
    (hp : f.path = SourcePath.localFile p) (seq : List String) :
    ∀ st, seq.Nodup →
    (∀ id, id ∈ seq →
      ((∃ n, mget old.nodes id = some n ∧ n.unique_id = id) ∧
        mget st.nodes id = none) ∨
      (mget old.nodes id = none ∧ mget st.disabled id = none ∧
        ∃ l v, mget old.disabled id = some l ∧
          l.filter (fun nn => nn.original_file_path == p) = [v] ∧
          v.unique_id = id)) →
    ∃ st',
      reuse_nodes old f ofile st seq = .ok st' ∧
      st'.sources = st.sources ∧ st'.docs = st.docs ∧
      st'.macros = st.macros ∧ st'.patches = st.patches ∧
      (∀ id, ¬ id ∈ seq → mget st'.nodes id = mget st.nodes id) ∧
      (∀ id, id ∈ seq → ∀ n, mget old.nodes id = some n →
        mget st'.nodes id = some n) ∧
      (∀ id, ¬ id ∈ seq → mget st'.disabled id = mget st.disabled id) ∧
      (∀ id l, id ∈ seq → mget old.nodes id = none →
        mget old.disabled id = some l →
        mget st'.disabled id =
          some (l.filter (fun nn => nn.original_file_path == p))) ∧
      st'.current_record f =
        { st.current_record f with
            nodes := (st.current_record f).nodes ++ seq } := by
  have hfp : f.path.original_file_path = p := by rw [hp]; rfl
  induction seq with
  | nil =>
    intro st _ _
    refine ⟨st, rfl, rfl, rfl, rfl, rfl, ?_, ?_, ?_, ?_, ?_⟩
    · intro id _; rfl
    · intro id hid; cases hid
    · intro id _; rfl
    · intro id l hid; cases hid
    · rw [List.append_nil]
  | cons h t ih =>
    intro st hnd hseq
    have hnotin : ¬ h ∈ t := (List.nodup_cons.mp hnd).1
    have hndt : t.Nodup := (List.nodup_cons.mp hnd).2
    rcases hseq h (List.mem_cons_self h t) with
      ⟨⟨n, hm, hn_uid⟩, hfreshn⟩ | ⟨hmn, hfreshd, l, v, hdl, hfil, hv_uid⟩
    · -- active node
      have hfresh' : mget st.nodes n.unique_id = none := by
        rw [hn_uid]; exact hfreshn
      have hok := add_node_ok st f n hfresh'
      have hntab : (({ st with nodes := mset st.nodes n.unique_id n }).mutate_file f
          (fun sf => { sf with nodes := sf.nodes ++ [n.unique_id] })).nodes =
          mset st.nodes n.unique_id n := mutate_file_nodes _ f _
      have hdis_eq : (({ st with nodes := mset st.nodes n.unique_id n }).mutate_file f
          (fun sf => { sf with nodes := sf.nodes ++ [n.unique_id] })).disabled =
          st.disabled := mutate_file_disabled _ f _
      have htail : ∀ id, id ∈ t →
          ((∃ n2, mget old.nodes id = some n2 ∧ n2.unique_id = id) ∧
            mget (({ st with nodes := mset st.nodes n.unique_id n }).mutate_file f
              (fun sf => { sf with nodes := sf.nodes ++ [n.unique_id] })).nodes
              id = none) ∨
          (mget old.nodes id = none ∧
            mget (({ st with nodes := mset st.nodes n.unique_id n }).mutate_file f
              (fun sf => { sf with nodes := sf.nodes ++ [n.unique_id] })).disabled
              id = none ∧
            ∃ l2 v2, mget old.disabled id = some l2 ∧
              l2.filter (fun nn => nn.original_file_path == p) = [v2] ∧
              v2.unique_id = id) := by
        intro id hid
        have hne : id ≠ h := fun hcon => hnotin (hcon ▸ hid)
        rcases hseq id (List.mem_cons_of_mem h hid) with ⟨hex, hfr⟩ | ⟨ha, hb, hc⟩
        · left
          refine ⟨hex, ?_⟩
          rw [hntab, hn_uid, mget_mset_ne st.nodes h id n hne]
          exact hfr
        · right
          refine ⟨ha, ?_, hc⟩
          rw [hdis_eq]
          exact hb
      obtain ⟨st', heq, e1, e2, e3, e4, hn_out, hn_in, hd_out, hd_in, hrec⟩ :=
        ih (({ st with nodes := mset st.nodes n.unique_id n }).mutate_file f
          (fun sf => { sf with nodes := sf.nodes ++ [n.unique_id] })) hndt htail
      refine ⟨st', ?_, ?_, ?_, ?_, ?_, ?_, ?_, ?_, ?_, ?_⟩
      · simp only [reuse_nodes, hm, hok]
        exact heq
      · rw [e1]
        exact mutate_file_sources _ f _
      · rw [e2]
        exact mutate_file_docs _ f _
      · rw [e3]
        exact mutate_file_macros _ f _
      · rw [e4]
        exact mutate_file_patches _ f _
      · intro id hid
        have hit : ¬ id ∈ t := fun hx => hid (List.mem_cons_of_mem h hx)
        have hne : id ≠ h := fun hcon => hid (hcon ▸ List.mem_cons_self h t)
        rw [hn_out id hit, hntab, hn_uid, mget_mset_ne st.nodes h id n hne]
      · intro id hid n2 hm2
        by_cases hit : id ∈ t
        · exact hn_in id hit n2 hm2
        · have hih : id = h := by
            rcases List.mem_cons.mp hid with hx | hx
            · exact hx
            · exact absurd hx hit
          subst hih
          rw [hm] at hm2
          injection hm2 with hm2
          subst hm2
          rw [hn_out id hit, hntab, hn_uid, mget_mset_self]
      · intro id hid
        have hit : ¬ id ∈ t := fun hx => hid (List.mem_cons_of_mem h hx)
        rw [hd_out id hit, hdis_eq]
      · intro id l2 hid hmn2 hdl2
        by_cases hit : id ∈ t
        · exact hd_in id l2 hit hmn2 hdl2
        · have hih : id = h := by
            rcases List.mem_cons.mp hid with hx | hx
            · exact hx
            · exact absurd hx hit
          subst hih
          rw [hm] at hmn2
          exact Option.noConfusion hmn2
      · rw [hrec, current_record_mutate _ f _ key hk, hn_uid, List.append_assoc]
        rfl
    · -- disabled id
      have hfil' : l.filter
          (fun nn => nn.original_file_path == f.path.original_file_path) = [v] := by
        simp only [hfp]
        exact hfil
      have hfreshv : mget st.disabled v.unique_id = none := by
        rw [hv_uid]; exact hfreshd
      have hst1 := add_disabled_eq_none st f v hfreshv
      have hdtab : (st.add_disabled f v).disabled =
          mset st.disabled v.unique_id [v] := by
        rw [hst1]
        exact mutate_file_disabled _ f _
      have hntab : (st.add_disabled f v).nodes = st.nodes := by
        rw [hst1]
        exact mutate_file_nodes _ f _
      have htail : ∀ id, id ∈ t →
          ((∃ n2, mget old.nodes id = some n2 ∧ n2.unique_id = id) ∧
            mget (st.add_disabled f v).nodes id = none) ∨
          (mget old.nodes id = none ∧
            mget (st.add_disabled f v).disabled id = none ∧
            ∃ l2 v2, mget old.disabled id = some l2 ∧
              l2.filter (fun nn => nn.original_file_path == p) = [v2] ∧
              v2.unique_id = id) := by
        intro id hid
        have hne : id ≠ h := fun hcon => hnotin (hcon ▸ hid)
        rcases hseq id (List.mem_cons_of_mem h hid) with ⟨hex, hfr⟩ | ⟨ha, hb, hc⟩
        · left
          refine ⟨hex, ?_⟩
          rw [hntab]
          exact hfr
        · right
          refine ⟨ha, ?_, hc⟩
          rw [hdtab, hv_uid, mget_mset_ne st.disabled h id [v] hne]
          exact hb
      obtain ⟨st', heq, e1, e2, e3, e4, hn_out, hn_in, hd_out, hd_in, hrec⟩ :=
        ih (st.add_disabled f v) hndt htail
      refine ⟨st', ?_, ?_, ?_, ?_, ?_, ?_, ?_, ?_, ?_, ?_⟩
      · simp only [reuse_nodes, hmn, hdl, ParseResult._get_disabled, hfil',
          List.foldl_cons, List.foldl_nil]
        exact heq
      · rw [e1, hst1]
        exact mutate_file_sources _ f _
      · rw [e2, hst1]
        exact mutate_file_docs _ f _
      · rw [e3, hst1]
        exact mutate_file_macros _ f _
      · rw [e4, hst1]
        exact mutate_file_patches _ f _
      · intro id hid
        have hit : ¬ id ∈ t := fun hx => hid (List.mem_cons_of_mem h hx)
        rw [hn_out id hit, hntab]
      · intro id hid n2 hm2
        by_cases hit : id ∈ t
        · exact hn_in id hit n2 hm2
        · have hih : id = h := by
            rcases List.mem_cons.mp hid with hx | hx
            · exact hx
            · exact absurd hx hit
          subst hih
          rw [hmn] at hm2
          exact Option.noConfusion hm2
      · intro id hid
        have hit : ¬ id ∈ t := fun hx => hid (List.mem_cons_of_mem h hx)
        have hne : id ≠ h := fun hcon => hid (hcon ▸ List.mem_cons_self h t)
        rw [hd_out id hit, hdtab, hv_uid, mget_mset_ne st.disabled h id [v] hne]
      · intro id l2 hid hmn2 hdl2
        by_cases hit : id ∈ t
        · exact hd_in id l2 hit hmn2 hdl2
        · have hih : id = h := by
            rcases List.mem_cons.mp hid with hx | hx
            · exact hx
            · exact absurd hx hit
          subst hih
          rw [hdl] at hdl2
          injection hdl2 with hdl2
          subst hdl2
          rw [hd_out id hit, hdtab, hv_uid, mget_mset_self, hfil]
      · rw [hrec, hst1, current_record_mutate _ f _ key hk, hv_uid,
          List.append_assoc]
        rfl

/-! ### Claim C1 -/

/-- C1 counterexample: all of the claim's hypotheses hold (the old file
record's only node id model.a is present in the old disabled table, and no
id is taken in the new registry), yet reuse returns true while copying
nothing: the disabled variant's original path differs from the file's, so
the variant is filtered out, the new disabled table stays empty, and the
per-file node sequence is not reproduced (empty instead of [model.a]). -/
theorem c1_counterexample :
    ParseResult.sanitized_update empty_result file_a c1_old_registry =
      .ok (empty_result, true) ∧
    mget c1_old_registry.disabled "model.a" = some [stray_variant] ∧
    c1_old_file.nodes = ["model.a"] ∧
    mget empty_result.disabled "model.a" = none ∧
    (empty_result.current_record file_a).nodes = [] := by
  refine ⟨?_, rfl, rfl, rfl, rfl⟩
  rfl

/-- C1 amended: reuse fidelity holds for a cacheable file whose candidate
record is fresh (empty sequences, key untracked in the new registry) and
whose old registry is key-consistent on the recorded ids, with
duplicate-free source/node/patch sequences, the recorded ids untaken in
the new registry, and each disabled node id carrying exactly one variant
matching the file's original path: sanitized_update returns true, copies
every referenced artifact unchanged (docs, then macros, then sources, then
nodes, then patches, as in the source), and reproduces each per-file id
sequence in the old per-file order. -/
theorem c1_reuse_fidelity (new_r old_r : ParseResult) (f old_file : SourceFile)
    (key p : String)
    (hp : f.path = SourcePath.localFile p)
    (hk : f.search_key = some key)
    (hold : mget old_r.files key = some old_file)
    (hfempty : f.nodes = [] ∧ f.docs = [] ∧ f.macros = [] ∧
      f.sources = [] ∧ f.patches = [])
    (hnewfile : mget new_r.files key = none)
    (hdocs : ∀ id, id ∈ old_file.docs →
      ∃ d, mget old_r.docs id = some d ∧ d.unique_id = id)
    (hmacros : ∀ id, id ∈ old_file.macros →
      ∃ m, mget old_r.macros id = some m ∧ m.unique_id = id)
    (hsrc_nd : old_file.sources.Nodup)
    (hsrc : ∀ id, id ∈ old_file.sources →
      (∃ s, mget old_r.sources id = some s ∧ s.unique_id = id) ∧
      mget new_r.sources id = none)
    (hnodes_nd : old_file.nodes.Nodup)
    (hnodes : ∀ id, id ∈ old_file.nodes →
      ((∃ n, mget old_r.nodes id = some n ∧ n.unique_id = id) ∧
        mget new_r.nodes id = none) ∨
      (mget old_r.nodes id = none ∧ mget new_r.disabled id = none ∧
        ∃ l v, mget old_r.disabled id = some l ∧
          l.filter (fun nn => nn.original_file_path == p) = [v] ∧
          v.unique_id = id))
    (hpat_nd : old_file.patches.Nodup)
    (hpat : ∀ nm, nm ∈ old_file.patches →
      (∃ q, mget old_r.patches nm = some q ∧ q.name = nm) ∧
      mget new_r.patches nm = none) :
    ∃ st,
      new_r.sanitized_update f old_r = .ok (st, true) ∧
      (∀ id, id ∈ old_file.docs → mget st.docs id = mget old_r.docs id) ∧
      (∀ id, id ∈ old_file.macros → mget st.macros id = mget old_r.macros id) ∧
      (∀ id, id ∈ old_file.sources → mget st.sources id = mget old_r.sources id) ∧
      (∀ id n, id ∈ old_file.nodes → mget old_r.nodes id = some n →
        mget st.nodes id = some n) ∧
      (∀ id l, id ∈ old_file.nodes → mget old_r.nodes id = none →
        mget old_r.disabled id = some l →
        mget st.disabled id =
          some (l.filter (fun nn => nn.original_file_path == p))) ∧
      (∀ nm, nm ∈ old_file.patches → mget st.patches nm = mget old_r.patches nm) ∧
      (st.current_record f).docs = old_file.docs ∧
      (st.current_record f).macros = old_file.macros ∧
      (st.current_record f).sources = old_file.sources ∧
      (st.current_record f).nodes = old_file.nodes ∧
      (st.current_record f).patches = old_file.patches := by
  have hgf : old_r.get_file f = (old_file, old_r) := by
    simp [ParseResult.get_file, hk, hold]
  have hcr0 : new_r.current_record f = f :=
    record_of_untracked new_r.files f key hk hnewfile
  obtain ⟨s1, heq1, a_nodes, a_sources, a_macros, a_patches, a_disabled,
      hdocs1, hrec1⟩ :=
    reuse_docs_spec old_r f old_file key hk old_file.docs new_r hdocs
  obtain ⟨s2, heq2, b_nodes, b_sources, b_docs, b_patches, b_disabled,
      hmac2, hrec2⟩ :=
    reuse_macros_spec old_r f old_file key hk old_file.macros s1 hmacros
  have hsrc2 : ∀ id, id ∈ old_file.sources →
      (∃ s, mget old_r.sources id = some s ∧ s.unique_id = id) ∧
      mget s2.sources id = none := by
    intro id hid
    refine ⟨(hsrc id hid).1, ?_⟩
    rw [b_sources, a_sources]
    exact (hsrc id hid).2
  obtain ⟨s3, heq3, k_nodes, k_docs, k_macros, k_patches, k_disabled,
      hsrc3, hrec3⟩ :=
    reuse_sources_spec old_r f old_file key hk old_file.sources s2 hsrc_nd hsrc2
  have hnodes3 : ∀ id, id ∈ old_file.nodes →
      ((∃ n, mget old_r.nodes id = some n ∧ n.unique_id = id) ∧
        mget s3.nodes id = none) ∨
      (mget old_r.nodes id = none ∧ mget s3.disabled id = none ∧
        ∃ l v, mget old_r.disabled id = some l ∧
          l.filter (fun nn => nn.original_file_path == p) = [v] ∧
          v.unique_id = id) := by
    intro id hid
    rcases hnodes id hid with ⟨hex, hfr⟩ | ⟨ha, hb, hc⟩
    · left
      refine ⟨hex, ?_⟩
      rw [k_nodes, b_nodes, a_nodes]
      exact hfr
    · right
      refine ⟨ha, ?_, hc⟩
      rw [k_disabled, b_disabled, a_disabled]
      exact hb
  obtain ⟨s4, heq4, d_sources, d_docs, d_macros, d_patches,
      dn_out, dn_in, dd_out, dd_in, hrec4⟩ :=
    reuse_nodes_spec old_r f old_file key p hk hp old_file.nodes s3
      hnodes_nd hnodes3
  have hpat4 : ∀ nm, nm ∈ old_file.patches →
      (∃ q, mget old_r.patches nm = some q ∧ q.name = nm) ∧
      mget s4.patches nm = none := by
    intro nm hnm
    refine ⟨(hpat nm hnm).1, ?_⟩
    rw [d_patches, k_patches, b_patches, a_patches]
    exact (hpat nm hnm).2
  obtain ⟨s5, heq5, e_nodes, e_docs, e_macros, e_sources, e_disabled,
      hpat5, hrec5⟩ :=
    reuse_patches_spec old_r f old_file key hk old_file.patches s4
      hpat_nd hpat4
  refine ⟨s5, ?_, ?_, ?_, ?_, ?_, ?_, ?_, ?_, ?_, ?_, ?_, ?_⟩
  · simp only [ParseResult.sanitized_update, hp, hgf, heq1, heq2, heq3,
      heq4, heq5, Except.bind]
  · intro id hid
    rw [e_docs, d_docs, k_docs, b_docs, hdocs1 id, if_pos hid]
  · intro id hid
    rw [e_macros, d_macros, k_macros, hmac2 id, if_pos hid]
  · intro id hid
    rw [e_sources, d_sources, hsrc3 id, if_pos hid]
  · intro id n hid hmn
    rw [e_nodes]
    exact dn_in id hid n hmn
  · intro id l hid hmn hdl
    rw [e_disabled]
    exact dd_in id l hid hmn hdl
  · intro nm hnm
    rw [hpat5 nm, if_pos hnm]
  · rw [hrec5, hrec4, hrec3, hrec2, hrec1, hcr0]
    show f.docs ++ old_file.docs = old_file.docs
    rw [hfempty.2.1, List.nil_append]
  · rw [hrec5, hrec4, hrec3, hrec2, hrec1, hcr0]
    show f.macros ++ old_file.macros = old_file.macros
    rw [hfempty.2.2.1, List.nil_append]
  · rw [hrec5, hrec4, hrec3, hrec2, hrec1, hcr0]
    show f.sources ++ old_file.sources = old_file.sources
    rw [hfempty.2.2.2.1, List.nil_append]
  · rw [hrec5, hrec4, hrec3, hrec2, hrec1, hcr0]
    show f.nodes ++ old_file.nodes = old_file.nodes
    rw [hfempty.1, List.nil_append]
  · rw [hrec5, hrec4, hrec3, hrec2, hrec1, hcr0]
    show f.patches ++ old_file.patches = old_file.patches
    rw [hfempty.2.2.2.2, List.nil_append]

/-- C1 witness: reusing file_a from an old registry holding one artifact of
every kind plus a matching disabled variant copies everything verbatim and
reproduces the per-file node order. -/
theorem c1_reuse_fidelity_witness :
    ∃ st, empty_result.sanitized_update file_a c1w_old = .ok (st, true) ∧
      mget st.nodes "model.a" = some node_a ∧
      mget st.disabled "model.dis" = some [dis_variant] ∧
      (st.current_record file_a).nodes = ["model.a", "model.dis"] ∧
      (st.current_record file_a).docs = ["doc.a"] := by
  obtain ⟨st, h0, hd, hm, hs, hn, hdis, hq, r1, r2, r3, r4, r5⟩ :=
    c1_reuse_fidelity empty_result c1w_old file_a c1w_old_file
      "models/a.sql" "models/a.sql" rfl rfl rfl ⟨rfl, rfl, rfl, rfl, rfl⟩ rfl
      (by
        intro id hid
        have hid2 : id = "doc.a" := by simpa [c1w_old_file] using hid
        subst hid2
        exact ⟨doc_a, rfl, rfl⟩)
      (by
        intro id hid
        have hid2 : id = "mcr.a" := by simpa [c1w_old_file] using hid
        subst hid2
        exact ⟨mcr_a, rfl, rfl⟩)
      (by decide)
      (by
        intro id hid
        have hid2 : id = "source.a" := by simpa [c1w_old_file] using hid
        subst hid2
        exact ⟨⟨src_a, rfl, rfl⟩, rfl⟩)
      (by decide)
      (by
        intro id hid
        have hid2 : id = "model.a" ∨ id = "model.dis" := by
          simpa [c1w_old_file] using hid
        rcases hid2 with h1 | h2
        · subst h1
          exact Or.inl ⟨⟨node_a, rfl, rfl⟩, rfl⟩
        · subst h2
          exact Or.inr ⟨rfl, rfl, [dis_variant], dis_variant, rfl, rfl, rfl⟩)
      (by decide)
      (by
        intro nm hnm
        have hnm2 : nm = "a" := by simpa [c1w_old_file] using hnm
        subst hnm2
        exact ⟨⟨patch_a, rfl, rfl⟩, rfl⟩)
  refine ⟨st, h0, ?_, ?_, ?_, ?_⟩
  · exact hn "model.a" node_a (by decide) rfl
  · exact hdis "model.dis" [dis_variant] (by decide) rfl rfl
  · rw [r4]
    rfl
  · rw [r1]
    rfl
